import Mathlib

/-!
Verification of the rust-raytracer rendering core.

The Rust source is shallowly embedded: `f32` values are modelled as exact
rationals (`ℚ`), with the infinity sentinels used for hit distances modelled
by the dedicated type `Fd`.  Transcendental operations the hardware
approximates (`sqrt`, `atan2`, `acos`, the constant `PI`) are gathered in a
`NumModel` parameter; theorems quantify over the model wherever possible and
concrete evaluations use `defaultModel`, whose square root is exact on
perfect squares (every concrete input below is chosen to stay exact).
-/

set_option allowUnsafeReducibility true

set_option maxRecDepth 100000

attribute [semireducible] Rat.mul Rat.inv Rat.add Rat.sub Rat.neg Rat.div Rat.blt

namespace RT

/-- Model of the transcendental `f32` operations used by the renderer.
`sqrt` stands for `f32::sqrt`, `atan2`/`acos`/`pi` are only used to produce
texture coordinates, which no traced property consults. -/
structure NumModel where
  sqrt : ℚ → ℚ
  atan2 : ℚ → ℚ → ℚ
  acos : ℚ → ℚ
  pi : ℚ

/-- Integer square root by bounded search (kernel-reducible, unlike
`Nat.sqrt`); all concrete radicands in this file are tiny. -/
def natSqrtLinear (n : ℕ) : ℕ :=
  (List.range (n + 1)).foldl (fun acc k => if k * k ≤ n then k else acc) 0

/-- Exact square root on rationals whose numerator and denominator are
perfect squares (all concrete inputs in this file are); `0` on negatives,
mirroring that no concrete evaluation below ever reaches that branch. -/
def ratSqrt (q : ℚ) : ℚ :=
  if q < 0 then 0 else (natSqrtLinear q.num.toNat : ℚ) / (natSqrtLinear q.den : ℚ)

/-- Default numeric model used for concrete evaluations.  The texture-only
fields are arbitrary representatives (no claim depends on them). -/
def defaultModel : NumModel :=
  { sqrt := ratSqrt, atan2 := fun _ _ => 0, acos := fun _ => 0, pi := 0 }

/-- `f32` hit distances together with the two infinity sentinels used by
`Hit::infinity` (plane and CSG code paths).  `fin q` is an ordinary finite
value. -/
inductive Fd where
  | fin (q : ℚ)
  | pinf
  | ninf
deriving DecidableEq

/-- The `<` comparison on `f32` distances (no NaN arises in the model). -/
def Fd.lt : Fd → Fd → Bool
  | .fin a, .fin b => a < b
  | .fin _, .pinf => true
  | .ninf, .fin _ => true
  | .ninf, .pinf => true
  | _, _ => false

/-- `a <= b` on distances, definable from `lt` because the order is total. -/
def Fd.le (a b : Fd) : Bool := !(Fd.lt b a)

/-- `f32::is_infinite`. -/
def Fd.isInfinite : Fd → Bool
  | .fin _ => false
  | _ => true

/-- `std::f32::MAX`, the initial minimum in the selection loops. -/
def f32MAX : Fd := .fin ((2 ^ 24 - 1) * 2 ^ 104)

/-- 3-component vector (`core/vector.rs`), components are `f32` modelled
as `ℚ`. -/
structure Vector where
  x : ℚ
  y : ℚ
  z : ℚ
deriving DecidableEq

/-- Point in space (`core/vertex.rs`). -/
structure Vertex where
  x : ℚ
  y : ℚ
  z : ℚ
deriving DecidableEq

def Vector.zero : Vector := ⟨0, 0, 0⟩

def Vertex.zero : Vertex := ⟨0, 0, 0⟩

/-- `Vertex::vector`. -/
def Vertex.vector (v : Vertex) : Vector := ⟨v.x, v.y, v.z⟩

def Vector.add (a b : Vector) : Vector := ⟨a.x + b.x, a.y + b.y, a.z + b.z⟩

def Vector.sub (a b : Vector) : Vector := ⟨a.x - b.x, a.y - b.y, a.z - b.z⟩

/-- `Vector::negated` / unary minus. -/
def Vector.negated (a : Vector) : Vector := ⟨-a.x, -a.y, -a.z⟩

/-- `Vector * f32`. -/
def Vector.smul (a : Vector) (s : ℚ) : Vector := ⟨a.x * s, a.y * s, a.z * s⟩

def Vector.dot (a b : Vector) : ℚ := a.x * b.x + a.y * b.y + a.z * b.z

def Vector.cross (a b : Vector) : Vector :=
  ⟨a.y * b.z - a.z * b.y, a.z * b.x - a.x * b.z, a.x * b.y - a.y * b.x⟩

def Vector.lenSqrd (a : Vector) : ℚ := a.x * a.x + a.y * a.y + a.z * a.z

def Vector.length (m : NumModel) (a : Vector) : ℚ := m.sqrt a.lenSqrd

def Vector.normalised (m : NumModel) (a : Vector) : Vector :=
  let l := a.length m
  ⟨a.x / l, a.y / l, a.z / l⟩

/-- `Vector::reflection`: `self` is the normal, `initial` the incident
direction. -/
def Vector.reflection (n initial : Vector) : Vector :=
  let d := n.dot initial * 2
  ⟨initial.x - d * n.x, initial.y - d * n.y, initial.z - d * n.z⟩

/-- `Vector::apply_transform` restricted to the 3x3 rotation matrices the
traced code builds (rows given explicitly). -/
def Vector.applyRot (a : Vector) (r0 r1 r2 : Vector) : Vector :=
  ⟨r0.x * a.x + r0.y * a.y + r0.z * a.z,
   r1.x * a.x + r1.y * a.y + r1.z * a.z,
   r2.x * a.x + r2.y * a.y + r2.z * a.z⟩

/-- `Vector::to_tangent_space` (normal-map rotation). -/
def Vector.toTangentSpace (m : NumModel) (a tangent normal : Vector) : Vector :=
  let t := tangent.normalised m
  let n := normal.normalised m
  let b := n.cross t
  ((a.applyRot ⟨t.x, b.x, n.x⟩ ⟨t.y, b.y, n.y⟩ ⟨t.z, b.z, n.z⟩)).normalised m

/-- `Vertex + Vector`. -/
def Vertex.addVec (p : Vertex) (v : Vector) : Vertex :=
  ⟨p.x + v.x, p.y + v.y, p.z + v.z⟩

/-- `Vertex - Vector`. -/
def Vertex.subVec (p : Vertex) (v : Vector) : Vertex :=
  ⟨p.x - v.x, p.y - v.y, p.z - v.z⟩

/-- RGBA colour (`core/colour.rs`); all four channels are carried by every
arithmetic operation, exactly as the Rust operator impls do. -/
structure Colour where
  r : ℚ
  g : ℚ
  b : ℚ
  a : ℚ
deriving DecidableEq

def Colour.black : Colour := ⟨0, 0, 0, 1⟩

def Colour.white : Colour := ⟨1, 1, 1, 1⟩

def Colour.add (c d : Colour) : Colour := ⟨c.r + d.r, c.g + d.g, c.b + d.b, c.a + d.a⟩

def Colour.mulC (c d : Colour) : Colour := ⟨c.r * d.r, c.g * d.g, c.b * d.b, c.a * d.a⟩

/-- `Colour * f32` (multiplies the alpha channel too, as the source does). -/
def Colour.smul (c : Colour) (s : ℚ) : Colour := ⟨c.r * s, c.g * s, c.b * s, c.a * s⟩

/-- `Colour / f32`.  The snapshot uses `colour / scalar` in
`photon_scene.rs` without shipping the operator impl; it is modelled
componentwise, mirroring the shipped `Mul<f32>`. -/
def Colour.divScalar (c : Colour) (s : ℚ) : Colour := ⟨c.r / s, c.g / s, c.b / s, c.a / s⟩

/-- `core/tex_coords.rs`. -/
structure TexCoords where
  u : ℚ
  v : ℚ
deriving DecidableEq

/-- `core/ray.rs`. -/
structure Ray where
  position : Vertex
  direction : Vector
deriving DecidableEq

/-- A ray-surface intersection (`core/hit.rs`).  The `what` back-reference
to the owning object is a borrow no traced claim consults and is omitted;
the `&dyn Material` borrow is modelled as a numeric handle resolved by the
environment. -/
structure Hit where
  distance : Fd
  entering : Bool
  position : Vertex
  normal : Vector
  material : ℕ
  texCoords : Option TexCoords
deriving DecidableEq

/-- `Hit::infinity`: sentinel hits at ±∞ carry a zero position and normal
and no texture coordinates. -/
def Hit.infinity (entering : Bool) (distance : Fd) (material : ℕ) : Hit :=
  { distance := distance, entering := entering, position := Vertex.zero,
    normal := Vector.zero, material := material, texCoords := none }

/-- The slice of a material a geometric primitive consults: its handle and
its optional tangent-space normal map (`Material::normal`). -/
structure GeomMaterial where
  id : ℕ
  normal : TexCoords → Option Vector

/-- A material whose `normal` query returns `None` (no normal map). -/
def plainMaterial (id : ℕ) : GeomMaterial := { id := id, normal := fun _ => none }

/-- `objects/sphere_object.rs`. -/
structure Sphere where
  centre : Vertex
  radius : ℚ
  material : GeomMaterial

/-- The closure `create_hit` inside `Sphere::intersect`. -/
def Sphere.createHit (m : NumModel) (s : Sphere) (ray : Ray) (distance : ℚ)
    (entering : Bool) : Hit :=
  let position := ray.position.addVec (ray.direction.smul distance)
  let normal0 := ((position.vector).sub s.centre.vector).normalised m
  let normal := if normal0.dot ray.direction > 0 then normal0.negated else normal0
  let theta := m.atan2 (-normal.x) normal.z + m.pi
  let phi := m.acos (-normal.y)
  let u := theta / (2 * m.pi)
  let v := (m.pi - phi) / m.pi
  let tex : TexCoords := ⟨u, v⟩
  let normal :=
    match s.material.normal tex with
    | some nmap =>
        let tangent := ((Vector.mk 1 0 0).cross
          ((position.subVec s.centre.vector).vector)).normalised m
        (nmap.toTangentSpace m tangent normal).normalised m
    | none => normal
  { distance := .fin distance, entering := entering, position := position,
    normal := normal, material := s.material.id, texCoords := some tex }

/-- `Sphere::intersect`: both quadratic roots are emitted (entering first),
with no filtering on the sign of the distance. -/
def Sphere.intersect (m : NumModel) (s : Sphere) (ray : Ray) : List Hit :=
  let ro := (ray.position.vector).sub s.centre.vector
  let a := ray.direction.dot ray.direction
  let b := 2 * ray.direction.dot ro
  let c := ro.dot ro - s.radius * s.radius
  let discriminant := b * b - 4 * a * c
  if discriminant < 0 then []
  else
    let ds := m.sqrt discriminant
    let t0 := (-b - ds) / 2
    let t1 := (-b + ds) / 2
    [s.createHit m ray t0 true, s.createHit m ray t1 false]

/-- `objects/quadratic_object.rs` (general quadric, ten coefficients). -/
structure Quadratic where
  a : ℚ
  b : ℚ
  c : ℚ
  d : ℚ
  e : ℚ
  f : ℚ
  g : ℚ
  h : ℚ
  i : ℚ
  j : ℚ
  material : GeomMaterial

/-- The closure `create_hit` inside `Quadratic::intersect`. -/
def Quadratic.createHit (m : NumModel) (q : Quadratic) (ray : Ray) (t : ℚ)
    (entering : Bool) : Hit :=
  let position := ray.position.addVec (ray.direction.smul t)
  let pv := position.vector
  let normal0 : Vector :=
    (Vector.mk (q.a * pv.x + q.b * pv.y + q.c * pv.z + q.d)
      (q.b * pv.x + q.e * pv.y + q.f * pv.z + q.g)
      (q.c * pv.x + q.f * pv.y + q.h * pv.z + q.i)).normalised m
  let normal := if normal0.dot ray.direction > 0 then normal0.negated else normal0
  { distance := .fin t, entering := entering, position := position,
    normal := normal, material := q.material.id, texCoords := none }

/-- `Quadratic::intersect`. -/
def Quadratic.intersect (m : NumModel) (q : Quadratic) (ray : Ray) : List Hit :=
  let P := ray.position
  let D := ray.direction
  let Aq := q.a * D.x ^ 2 + 2 * q.b * D.x * D.y + 2 * q.c * D.x * D.z
    + q.e * D.y ^ 2 + 2 * q.f * D.y * D.z + q.h * D.z ^ 2
  let Bq := 2 * (q.a * P.x * D.x + q.b * (P.x * D.y + P.y * D.x)
    + q.c * (P.x * D.z + D.x * P.z) + q.d * D.x + q.e * P.y * D.y
    + q.f * (P.y * D.z + D.y * P.z) + q.g * D.y + q.h * P.z * D.z + q.i * D.z)
  let Cq := q.a * P.x ^ 2 + 2 * q.b * P.x * P.y + 2 * q.c * P.x * P.z
    + 2 * q.d * P.x + q.e * P.y ^ 2 + 2 * q.f * P.y * P.z + 2 * q.g * P.y
    + q.h * P.z ^ 2 + 2 * q.i * P.z + q.j
  if |Aq| = 0 then []
  else
    let disc := Bq ^ 2 - 4 * Aq * Cq
    if disc < 0 then []
    else
      let ds := m.sqrt disc
      let t0 := (-Bq - ds) / (2 * Aq)
      let t1 := (-Bq + ds) / (2 * Aq)
      let p := if t0 > t1 then (t1, t0) else (t0, t1)
      [q.createHit m ray p.1 true, q.createHit m ray p.2 false]

lemma dot_negated (v w : Vector) : v.negated.dot w = -(v.dot w) := by
  simp [Vector.negated, Vector.dot]; ring

/-- The flip `if normal·d > 0 then negate` leaves every emitted normal with
a non-positive dot product against the ray direction. -/
lemma flip_dot_nonpos (n d : Vector) :
    (if n.dot d > 0 then n.negated else n).dot d ≤ 0 := by
  by_cases hnd : n.dot d > 0
  · simp [hnd, dot_negated]; linarith
  · simp [hnd]; linarith [not_lt.mp hnd]

lemma Sphere.createHitDotNonpos (m : NumModel) (s : Sphere) (ray : Ray)
    (t : ℚ) (ent : Bool) (hmat : ∀ tc, s.material.normal tc = none) :
    ((s.createHit m ray t ent)).normal.dot ray.direction ≤ 0 := by
  unfold Sphere.createHit
  simp only [hmat]
  exact flip_dot_nonpos _ _

lemma Quadratic.quadHitDotNonpos (m : NumModel) (q : Quadratic) (ray : Ray)
    (t : ℚ) (ent : Bool) :
    ((q.createHit m ray t ent)).normal.dot ray.direction ≤ 0 := by
  unfold Quadratic.createHit
  exact flip_dot_nonpos _ _

/-- Concrete sphere used to settle claim C2: unit sphere 5 units down the
+z axis, hit head-on by a ray from the origin. -/
def sphereC2 : Sphere := { centre := ⟨0, 0, 5⟩, radius := 1, material := plainMaterial 0 }

def rayC2 : Ray := { position := ⟨0, 0, 0⟩, direction := ⟨0, 0, 1⟩ }

def junkHit : Hit := Hit.infinity true .pinf 0

/-- Claim C2 (counterexample): on the unit sphere at (0,0,5) hit by the ray
from the origin along +z, the second (exiting, t = 6) hit is emitted with
`normal · ray.direction = -1 < 0`, not `> 0` as the claim requires for
exiting hits: `Sphere::intersect` flips every normal against the ray. -/
theorem claim2_counterexample :
    ((Sphere.intersect defaultModel sphereC2 rayC2).getD 1 junkHit).entering = false
    ∧ ((Sphere.intersect defaultModel sphereC2 rayC2).getD 1 junkHit).normal.dot
        rayC2.direction < 0 := by
  constructor
  · decide
  · decide

/-- Claim C2 (amended): for materials without a normal map, every hit
emitted by `Sphere::intersect` and by `Quadratic::intersect` satisfies
`normal · ray.direction ≤ 0` — the normal is flipped to face against the
ray for entering AND exiting hits alike, so exiting hits do not satisfy
`normal · ray.direction > 0`. -/
theorem claim2_normals_face_against_ray (m : NumModel) (s : Sphere)
    (q : Quadratic) (ray : Ray) (h : Hit)
    (hmat : ∀ tc, s.material.normal tc = none) :
    (h ∈ Sphere.intersect m s ray → h.normal.dot ray.direction ≤ 0)
    ∧ (h ∈ Quadratic.intersect m q ray → h.normal.dot ray.direction ≤ 0) := by
  constructor
  · intro hmem
    simp only [Sphere.intersect] at hmem
    split at hmem
    · simp at hmem
    · simp only [List.mem_cons, List.not_mem_nil, or_false] at hmem
      rcases hmem with hmem | hmem <;> subst hmem <;>
        exact Sphere.createHitDotNonpos m s ray _ _ hmat
  · intro hmem
    simp only [Quadratic.intersect] at hmem
    split at hmem
    · simp at hmem
    · split at hmem
      · simp at hmem
      · simp only [List.mem_cons, List.not_mem_nil, or_false] at hmem
        rcases hmem with hmem | hmem <;> subst hmem <;>
          exact Quadratic.quadHitDotNonpos m q ray _ _

lemma Fd.lt_irrefl (a : Fd) : Fd.lt a a = false := by
  cases a <;> simp [Fd.lt]

lemma Fd.lt_asymm {a b : Fd} (h : Fd.lt a b = true) : Fd.lt b a = false := by
  cases a <;> cases b <;> simp_all [Fd.lt] <;> linarith

lemma Fd.lt_trans {a b c : Fd} (hab : Fd.lt a b = true) (hbc : Fd.lt b c = true) :
    Fd.lt a c = true := by
  cases a <;> cases b <;> cases c <;> simp_all [Fd.lt] <;> linarith

lemma Fd.le_of_lt {a b : Fd} (h : Fd.lt a b = true) : Fd.le a b = true := by
  simp only [Fd.le, Bool.not_eq_true', Fd.lt_asymm h]

lemma Fd.le_refl (a : Fd) : Fd.le a a = true := by
  simp only [Fd.le, Bool.not_eq_true', Fd.lt_irrefl]

lemma Fd.le_of_not_lt {a b : Fd} (h : Fd.lt a b = false) : Fd.le b a = true := by
  simp only [Fd.le, Bool.not_eq_true', h]

lemma Fd.le_trans {a b c : Fd} (hab : Fd.le a b = true) (hbc : Fd.le b c = true) :
    Fd.le a c = true := by
  cases a <;> cases b <;> cases c <;> simp_all [Fd.lt, Fd.le] <;> linarith

lemma Fd.le_lt_trans {a b c : Fd} (hab : Fd.le a b = true) (hbc : Fd.lt b c = true) :
    Fd.lt a c = true := by
  cases a <;> cases b <;> cases c <;> simp_all [Fd.lt, Fd.le] <;> linarith

lemma Fd.lt_le_trans {a b c : Fd} (hab : Fd.lt a b = true) (hbc : Fd.le b c = true) :
    Fd.lt a c = true := by
  cases a <;> cases b <;> cases c <;> simp_all [Fd.lt, Fd.le] <;> linarith

/-- The two material evaluators dispatched through a `Hit`'s material
handle (`materials/material.rs`), with the scene argument already fixed. -/
structure MaterialFns where
  computeOnce : Ray → Hit → ℕ → Colour
  computePerLight : Vector → Hit → Vector → Colour

/-- A light's queries (`lights/light.rs`). -/
structure LightFns where
  getDirection : Vertex → Option Vector
  getIntensity : Vertex → Option Colour

/-- A primitive as the scene sees it: its `intersect` entry point.  The
total function models executions in which no `HitVec` overflow panic
occurs (overflow is modelled separately at `HitVec.push`). -/
structure Obj where
  intersect : Ray → List Hit

/-- `environments/scene.rs`: object list, light list, and the material
table resolving the `&dyn Material` handles stored in hits. -/
structure Scene where
  objects : List Obj
  lights : List LightFns
  materials : ℕ → MaterialFns

/-- `environments/environment.rs`: a raytrace answer. -/
structure RaytraceResult where
  colour : Colour
  depth : Fd
deriving DecidableEq

/-- One step of the `Scene::select_first_hit` loop. -/
def selectStep (acc : Option Hit × Fd) (hit : Hit) : Option Hit × Fd :=
  if Fd.lt hit.distance (.fin 0) then acc
  else if !hit.entering then acc
  else if Fd.lt hit.distance acc.2 then (some hit, hit.distance) else acc

/-- `Scene::select_first_hit`: scan for the nearest hit that is entering
and has distance not below `0.0`, starting the minimum at `f32::MAX`. -/
def Scene.selectFirstHit (hits : List Hit) : Option Hit :=
  (hits.foldl selectStep ((none : Option Hit), f32MAX)).1

/-- One step of the `Scene::trace` loop over objects. -/
def traceStep (ray : Ray) (acc : Option Hit × Fd) (obj : Obj) : Option Hit × Fd :=
  match Scene.selectFirstHit (obj.intersect ray) with
  | none => acc
  | some hit => if Fd.lt hit.distance acc.2 then (some hit, hit.distance) else acc

/-- `Scene::trace`: nearest selected hit across all objects. -/
def Scene.trace (s : Scene) (ray : Ray) : Option Hit :=
  (s.objects.foldl (traceStep ray) ((none : Option Hit), f32MAX)).1

/-- `Scene::shadowtrace`: true when some object's selected first hit lies
strictly between `1e-7` and `limit` along the ray. -/
def Scene.shadowtrace (s : Scene) (ray : Ray) (limit : ℚ) : Bool :=
  s.objects.any fun obj =>
    match Scene.selectFirstHit (obj.intersect ray) with
    | none => false
    | some hit =>
        Fd.lt (.fin (1 / 10000000)) hit.distance && Fd.lt hit.distance (.fin limit)

/-- `Scene::raytrace`.  The result is `none` exactly when the source
panics (a light returning a direction but no intensity hits the
`expect`); every other path yields `some`. -/
def Scene.raytrace (m : NumModel) (s : Scene) (ray : Ray) (depth : ℕ) :
    Option RaytraceResult :=
  match s.trace ray with
  | none => some { colour := Colour.black, depth := .fin 0 }
  | some hit =>
    let c0 := (s.materials hit.material).computeOnce ray hit depth
    let colour? := s.lights.foldlM (fun c light =>
      let viewer := ((hit.position.vector).normalised m).negated
      let lit := match light.getDirection hit.position with
        | some ldir => if ldir.dot hit.normal > 0 then none else some ldir
        | none => none
      let lit := match lit with
        | some ldir =>
          let sdir := ldir.negated
          let sorig := hit.position.addVec (sdir.smul (1 / 10000))
          if s.shadowtrace { position := sorig, direction := sdir } (ldir.length m)
          then none else some ldir
        | none => none
      match lit with
      | some ldir =>
        match light.getIntensity hit.position with
        | some intensity =>
            some (c.add
              (((s.materials hit.material).computePerLight viewer hit ldir).mulC
                intensity))
        | none => none
      | none => some c) c0
    colour?.map fun c => { colour := c, depth := hit.distance }

/-- Validity as `select_first_hit` enforces it: entering, distance not
negative, and strictly below the initial `f32::MAX` minimum (which rules
out the `+inf` sentinels). -/
def validHitB (h : Hit) : Bool :=
  h.entering && !(Fd.lt h.distance (.fin 0)) && Fd.lt h.distance f32MAX

/-- Loop invariant of the two selection folds: the tracked minimum
distance is `f32::MAX` while no hit is held, and the held hit's distance
(and validity) otherwise. -/
def accInv (acc : Option Hit × Fd) : Prop :=
  match acc.1 with
  | none => acc.2 = f32MAX
  | some h => acc.2 = h.distance ∧ validHitB h = true

lemma accInv_none {acc : Option Hit × Fd} (h : acc.1 = none) (hi : accInv acc) :
    acc.2 = f32MAX := by
  unfold accInv at hi; rw [h] at hi; exact hi

lemma accInv_some {acc : Option Hit × Fd} {h0 : Hit} (h : acc.1 = some h0)
    (hi : accInv acc) : acc.2 = h0.distance ∧ validHitB h0 = true := by
  unfold accInv at hi; rw [h] at hi; exact hi

lemma validHitB_eq (h : Hit) :
    validHitB h = true ↔
      h.entering = true ∧ Fd.lt h.distance (.fin 0) = false
        ∧ Fd.lt h.distance f32MAX = true := by
  unfold validHitB
  rw [Bool.and_eq_true, Bool.and_eq_true, Bool.not_eq_true']
  exact and_assoc

lemma selectFold (l : List Hit) : ∀ (acc : Option Hit × Fd), accInv acc →
    accInv (l.foldl selectStep acc)
    ∧ ((l.foldl selectStep acc).1 = acc.1
        ∨ ∃ h, (l.foldl selectStep acc).1 = some h ∧ h ∈ l)
    ∧ (∀ h2 ∈ l, validHitB h2 = true → (l.foldl selectStep acc).1 ≠ none)
    ∧ (∀ h, (l.foldl selectStep acc).1 = some h → ∀ h2 ∈ l,
        validHitB h2 = true → Fd.le h.distance h2.distance = true)
    ∧ (∀ h h0, (l.foldl selectStep acc).1 = some h → acc.1 = some h0 →
        Fd.le h.distance h0.distance = true)
    ∧ ((l.foldl selectStep acc).1 = none → acc.1 = none) := by
  induction l with
  | nil =>
    intro acc hacc
    refine ⟨hacc, Or.inl rfl, ?_, ?_, ?_, fun h => h⟩
    · intro h2 h2mem; exact absurd h2mem (List.not_mem_nil h2)
    · intro h hr h2 h2mem; exact absurd h2mem (List.not_mem_nil h2)
    · intro h h0 hr hacc0
      rw [List.foldl_nil, hacc0] at hr
      injection hr with he
      rw [he]; exact Fd.le_refl _
  | cons hd tl ih =>
    intro acc hacc
    rw [List.foldl_cons]
    by_cases h1 : Fd.lt hd.distance (.fin 0) = true
    · have hstep : selectStep acc hd = acc := by simp [selectStep, h1]
      rw [hstep]
      have hinval : validHitB hd = false := by
        simp [validHitB, h1]
      obtain ⟨i1, i2, i3, i4, i5, i6⟩ := ih acc hacc
      refine ⟨i1, ?_, ?_, ?_, i5, i6⟩
      · rcases i2 with h | ⟨h, hh, hmem⟩
        · exact Or.inl h
        · exact Or.inr ⟨h, hh, List.mem_cons_of_mem _ hmem⟩
      · intro h2 h2mem h2val
        rcases List.mem_cons.mp h2mem with rfl | h2mem
        · rw [hinval] at h2val; exact absurd h2val (by simp)
        · exact i3 h2 h2mem h2val
      · intro h hr h2 h2mem h2val
        rcases List.mem_cons.mp h2mem with rfl | h2mem
        · rw [hinval] at h2val; exact absurd h2val (by simp)
        · exact i4 h hr h2 h2mem h2val
    · by_cases h2e : hd.entering = true
      · by_cases h3 : Fd.lt hd.distance acc.2 = true
        · -- the hit becomes the new minimum
          have hstep : selectStep acc hd = (some hd, hd.distance) := by
            simp [selectStep, h1, h2e, h3]
          rw [hstep]
          have hvalid : validHitB hd = true := by
            rw [validHitB_eq]
            refine ⟨h2e, eq_false_of_ne_true h1, ?_⟩
            cases hacc1 : acc.1 with
            | none =>
              rw [accInv_none hacc1 hacc] at h3; exact h3
            | some h0 =>
              obtain ⟨hd0, hv0⟩ := accInv_some hacc1 hacc
              rw [hd0] at h3
              exact Fd.lt_trans h3 ((validHitB_eq h0).mp hv0).2.2
          have hinv1 : accInv (some hd, hd.distance) := ⟨rfl, hvalid⟩
          obtain ⟨i1, i2, i3, i4, i5, i6⟩ := ih (some hd, hd.distance) hinv1
          refine ⟨i1, ?_, ?_, ?_, ?_, ?_⟩
          · rcases i2 with h | ⟨h, hh, hmem⟩
            · exact Or.inr ⟨hd, h, List.mem_cons_self hd tl⟩
            · exact Or.inr ⟨h, hh, List.mem_cons_of_mem _ hmem⟩
          · intro h2 h2mem h2val
            intro hnone
            exact absurd (i6 hnone) (by simp)
          · intro h hr h2 h2mem h2val
            rcases List.mem_cons.mp h2mem with rfl | h2mem
            · exact i5 h h2 hr rfl
            · exact i4 h hr h2 h2mem h2val
          · intro h h0 hr hacc0
            have hle := i5 h hd hr rfl
            unfold accInv at hacc
            rw [hacc0] at hacc
            obtain ⟨hd0, _⟩ := hacc
            rw [hd0] at h3
            exact Fd.le_of_lt (Fd.le_lt_trans hle h3)
          · intro hnone
            exact absurd (i6 hnone) (by simp)
        · -- the minimum is kept
          have hstep : selectStep acc hd = acc := by
            simp [selectStep, h1, h2e, h3]
          rw [hstep]
          obtain ⟨i1, i2, i3, i4, i5, i6⟩ := ih acc hacc
          have hd_case : validHitB hd = false ∨
              ∃ h0, acc.1 = some h0 ∧ Fd.le h0.distance hd.distance = true := by
            cases hacc1 : acc.1 with
            | none =>
              left
              rw [accInv_none hacc1 hacc] at h3
              have hlt : Fd.lt hd.distance f32MAX = false := eq_false_of_ne_true h3
              cases hvb : validHitB hd with
              | false => rfl
              | true =>
                have hmax := ((validHitB_eq hd).mp hvb).2.2
                rw [hlt] at hmax
                exact absurd hmax (by simp)
            | some h0 =>
              obtain ⟨hd0, _⟩ := accInv_some hacc1 hacc
              right
              refine ⟨h0, rfl, ?_⟩
              rw [hd0] at h3
              exact Fd.le_of_not_lt (eq_false_of_ne_true h3)
          refine ⟨i1, ?_, ?_, ?_, i5, i6⟩
          · rcases i2 with h | ⟨h, hh, hmem⟩
            · exact Or.inl h
            · exact Or.inr ⟨h, hh, List.mem_cons_of_mem _ hmem⟩
          · intro h2 h2mem h2val
            rcases List.mem_cons.mp h2mem with rfl | h2mem
            · rcases hd_case with hbad | ⟨h0, hacc0, _⟩
              · rw [hbad] at h2val; exact absurd h2val (by simp)
              · intro hnone
                rw [i6 hnone] at hacc0
                exact absurd hacc0 (by simp)
            · exact i3 h2 h2mem h2val
          · intro h hr h2 h2mem h2val
            rcases List.mem_cons.mp h2mem with rfl | h2mem
            · rcases hd_case with hbad | ⟨h0, hacc0, hle0⟩
              · rw [hbad] at h2val; exact absurd h2val (by simp)
              · exact Fd.le_trans (i5 h h0 hr hacc0) hle0
            · exact i4 h hr h2 h2mem h2val
      · -- not an entering hit: skipped
        have h2f : hd.entering = false := eq_false_of_ne_true h2e
        have hstep : selectStep acc hd = acc := by
          simp [selectStep, h1, h2f]
        rw [hstep]
        have hinval : validHitB hd = false := by
          simp [validHitB, h2f]
        obtain ⟨i1, i2, i3, i4, i5, i6⟩ := ih acc hacc
        refine ⟨i1, ?_, ?_, ?_, i5, i6⟩
        · rcases i2 with h | ⟨h, hh, hmem⟩
          · exact Or.inl h
          · exact Or.inr ⟨h, hh, List.mem_cons_of_mem _ hmem⟩
        · intro h2 h2mem h2val
          rcases List.mem_cons.mp h2mem with rfl | h2mem
          · rw [hinval] at h2val; exact absurd h2val (by simp)
          · exact i3 h2 h2mem h2val
        · intro h hr h2 h2mem h2val
          rcases List.mem_cons.mp h2mem with rfl | h2mem
          · rw [hinval] at h2val; exact absurd h2val (by simp)
          · exact i4 h hr h2 h2mem h2val

lemma selectFirstHit_sound {hits : List Hit} {h : Hit}
    (hs : Scene.selectFirstHit hits = some h) :
    validHitB h = true ∧ h ∈ hits
      ∧ ∀ h2 ∈ hits, validHitB h2 = true → Fd.le h.distance h2.distance = true := by
  obtain ⟨i1, i2, i3, i4, i5, i6⟩ :=
    selectFold hits ((none : Option Hit), f32MAX) rfl
  unfold Scene.selectFirstHit at hs
  refine ⟨?_, ?_, fun h2 hm hv => i4 h hs h2 hm hv⟩
  · unfold accInv at i1
    rw [hs] at i1
    exact i1.2
  · rcases i2 with hid | ⟨h3, hh3, hmem⟩
    · rw [hs] at hid; exact absurd hid (by simp)
    · rw [hs] at hh3; injection hh3 with he; rw [← he] at hmem; exact hmem

lemma selectFirstHit_none_iff {hits : List Hit} :
    Scene.selectFirstHit hits = none ↔ ∀ h ∈ hits, validHitB h = false := by
  constructor
  · intro hn h hm
    by_contra hne
    have hv : validHitB h = true := by
      cases hvb : validHitB h with
      | true => rfl
      | false => exact absurd hvb hne
    obtain ⟨i1, i2, i3, i4, i5, i6⟩ :=
      selectFold hits ((none : Option Hit), f32MAX) rfl
    exact i3 h hm hv hn
  · intro hall
    cases hx : Scene.selectFirstHit hits with
    | none => rfl
    | some h =>
      obtain ⟨hv, hmem, _⟩ := selectFirstHit_sound hx
      rw [hall h hmem] at hv
      exact absurd hv (by simp)

lemma traceFold (ray : Ray) (objs : List Obj) :
    ∀ (acc : Option Hit × Fd), accInv acc →
    accInv (objs.foldl (traceStep ray) acc)
    ∧ ((objs.foldl (traceStep ray) acc).1 = acc.1
        ∨ ∃ h, (objs.foldl (traceStep ray) acc).1 = some h
            ∧ ∃ o ∈ objs, h ∈ o.intersect ray)
    ∧ (∀ o ∈ objs, ∀ h2 ∈ o.intersect ray, validHitB h2 = true →
        (objs.foldl (traceStep ray) acc).1 ≠ none)
    ∧ (∀ h, (objs.foldl (traceStep ray) acc).1 = some h → ∀ o ∈ objs,
        ∀ h2 ∈ o.intersect ray, validHitB h2 = true →
          Fd.le h.distance h2.distance = true)
    ∧ (∀ h h0, (objs.foldl (traceStep ray) acc).1 = some h → acc.1 = some h0 →
        Fd.le h.distance h0.distance = true)
    ∧ ((objs.foldl (traceStep ray) acc).1 = none → acc.1 = none) := by
  induction objs with
  | nil =>
    intro acc hacc
    refine ⟨hacc, Or.inl rfl, ?_, ?_, ?_, fun h => h⟩
    · intro o omem; exact absurd omem (List.not_mem_nil o)
    · intro h hr o omem; exact absurd omem (List.not_mem_nil o)
    · intro h h0 hr hacc0
      rw [List.foldl_nil, hacc0] at hr
      injection hr with he
      rw [he]; exact Fd.le_refl _
  | cons ob tl ih =>
    intro acc hacc
    rw [List.foldl_cons]
    cases hsel : Scene.selectFirstHit (ob.intersect ray) with
    | none =>
      -- this object contributes no selectable hit: all its hits are invalid
      have hstep : traceStep ray acc ob = acc := by
        simp [traceStep, hsel]
      rw [hstep]
      have hallinv : ∀ h2 ∈ ob.intersect ray, validHitB h2 = false :=
        selectFirstHit_none_iff.mp hsel
      obtain ⟨i1, i2, i3, i4, i5, i6⟩ := ih acc hacc
      refine ⟨i1, ?_, ?_, ?_, i5, i6⟩
      · rcases i2 with h | ⟨h, hh, o, omem, hmem⟩
        · exact Or.inl h
        · exact Or.inr ⟨h, hh, o, List.mem_cons_of_mem _ omem, hmem⟩
      · intro o omem h2 h2mem h2val
        rcases List.mem_cons.mp omem with rfl | omem
        · rw [hallinv h2 h2mem] at h2val; exact absurd h2val (by simp)
        · exact i3 o omem h2 h2mem h2val
      · intro h hr o omem h2 h2mem h2val
        rcases List.mem_cons.mp omem with rfl | omem
        · rw [hallinv h2 h2mem] at h2val; exact absurd h2val (by simp)
        · exact i4 h hr o omem h2 h2mem h2val
    | some so =>
      obtain ⟨hsov, hsomem, hsomin⟩ := selectFirstHit_sound hsel
      by_cases h3 : Fd.lt so.distance acc.2 = true
      · -- this object's selected hit becomes the minimum
        have hstep : traceStep ray acc ob = (some so, so.distance) := by
          simp [traceStep, hsel, h3]
        rw [hstep]
        have hinv1 : accInv (some so, so.distance) := ⟨rfl, hsov⟩
        obtain ⟨i1, i2, i3, i4, i5, i6⟩ := ih (some so, so.distance) hinv1
        refine ⟨i1, ?_, ?_, ?_, ?_, ?_⟩
        · rcases i2 with h | ⟨h, hh, o, omem, hmem⟩
          · exact Or.inr ⟨so, h, ob, List.mem_cons_self ob tl, hsomem⟩
          · exact Or.inr ⟨h, hh, o, List.mem_cons_of_mem _ omem, hmem⟩
        · intro o omem h2 h2mem h2val hnone
          exact absurd (i6 hnone) (by simp)
        · intro h hr o omem h2 h2mem h2val
          rcases List.mem_cons.mp omem with rfl | omem
          · exact Fd.le_trans (i5 h so hr rfl) (hsomin h2 h2mem h2val)
          · exact i4 h hr o omem h2 h2mem h2val
        · intro h h0 hr hacc0
          have hle := i5 h so hr rfl
          obtain ⟨hd0, _⟩ := accInv_some hacc0 hacc
          rw [hd0] at h3
          exact Fd.le_of_lt (Fd.le_lt_trans hle h3)
        · intro hnone
          exact absurd (i6 hnone) (by simp)
      · -- the running minimum is kept
        have hstep : traceStep ray acc ob = acc := by
          simp [traceStep, hsel, h3]
        rw [hstep]
        obtain ⟨i1, i2, i3, i4, i5, i6⟩ := ih acc hacc
        have hso_case : ∃ h0, acc.1 = some h0
            ∧ Fd.le h0.distance so.distance = true := by
          cases hacc1 : acc.1 with
          | none =>
            have hmax := accInv_none hacc1 hacc
            rw [hmax] at h3
            have := ((validHitB_eq so).mp hsov).2.2
            exact absurd this h3
          | some h0 =>
            obtain ⟨hd0, _⟩ := accInv_some hacc1 hacc
            rw [hd0] at h3
            exact ⟨h0, rfl, Fd.le_of_not_lt (eq_false_of_ne_true h3)⟩
        refine ⟨i1, ?_, ?_, ?_, i5, i6⟩
        · rcases i2 with h | ⟨h, hh, o, omem, hmem⟩
          · exact Or.inl h
          · exact Or.inr ⟨h, hh, o, List.mem_cons_of_mem _ omem, hmem⟩
        · intro o omem h2 h2mem h2val
          obtain ⟨h0, hacc0, _⟩ := hso_case
          intro hnone
          rw [i6 hnone] at hacc0
          exact absurd hacc0 (by simp)
        · intro h hr o omem h2 h2mem h2val
          rcases List.mem_cons.mp omem with rfl | omem
          · obtain ⟨h0, hacc0, hle0⟩ := hso_case
            exact Fd.le_trans (Fd.le_trans (i5 h h0 hr hacc0) hle0)
              (hsomin h2 h2mem h2val)
          · exact i4 h hr o omem h2 h2mem h2val

lemma trace_sound {s : Scene} {ray : Ray} {h : Hit}
    (ht : s.trace ray = some h) :
    validHitB h = true ∧ (∃ o ∈ s.objects, h ∈ o.intersect ray)
      ∧ ∀ o ∈ s.objects, ∀ h2 ∈ o.intersect ray, validHitB h2 = true →
          Fd.le h.distance h2.distance = true := by
  obtain ⟨i1, i2, i3, i4, i5, i6⟩ :=
    traceFold ray s.objects ((none : Option Hit), f32MAX) rfl
  unfold Scene.trace at ht
  refine ⟨?_, ?_, fun o om h2 hm hv => i4 h ht o om h2 hm hv⟩
  · exact (accInv_some ht i1).2
  · rcases i2 with hid | ⟨h3, hh3, o, omem, hmem⟩
    · rw [ht] at hid; exact absurd hid (by simp)
    · rw [ht] at hh3; injection hh3 with he
      rw [← he] at hmem
      exact ⟨o, omem, hmem⟩

lemma trace_none_iff {s : Scene} {ray : Ray} :
    s.trace ray = none ↔
      ∀ o ∈ s.objects, ∀ h ∈ o.intersect ray, validHitB h = false := by
  constructor
  · intro hn o om h hm
    cases hvb : validHitB h with
    | false => rfl
    | true =>
      obtain ⟨i1, i2, i3, i4, i5, i6⟩ :=
        traceFold ray s.objects ((none : Option Hit), f32MAX) rfl
      exact absurd hn (i3 o om h hm hvb)
  · intro hall
    cases hx : Scene.trace s ray with
    | none => rfl
    | some h =>
      obtain ⟨hv, ⟨o, om, hm⟩, _⟩ := trace_sound hx
      rw [hall o om h hm] at hv
      exact absurd hv (by simp)

/-- Claim C1 (amended): `Scene::raytrace` selects, across all primitives,
the nearest hit that is entering and has distance greater than OR EQUAL to
`0.0` (the source test is `distance < 0.0`, so a hit at distance exactly
`0` is selected, and `+inf` sentinel distances — which never beat the
initial `f32::MAX` minimum — are not); if no such hit exists it returns
colour black and depth 0.  Its depth output is the selected hit's
distance. -/
theorem claim1_raytrace_nearest (m : NumModel) (s : Scene) (ray : Ray)
    (depth : ℕ) :
    (s.trace ray = none →
      Scene.raytrace m s ray depth = some ⟨Colour.black, .fin 0⟩)
    ∧ (s.trace ray = none ↔
        ∀ o ∈ s.objects, ∀ h ∈ o.intersect ray, validHitB h = false)
    ∧ (∀ h, s.trace ray = some h →
        validHitB h = true
        ∧ (∃ o ∈ s.objects, h ∈ o.intersect ray)
        ∧ (∀ o ∈ s.objects, ∀ h2 ∈ o.intersect ray, validHitB h2 = true →
            Fd.le h.distance h2.distance = true)
        ∧ ∀ r, Scene.raytrace m s ray depth = some r →
            r.depth = h.distance) := by
  refine ⟨?_, trace_none_iff, ?_⟩
  · intro hn
    unfold Scene.raytrace
    rw [hn]
  · intro h ht
    obtain ⟨hv, hex, hmin⟩ := trace_sound ht
    refine ⟨hv, hex, hmin, ?_⟩
    intro r hr
    unfold Scene.raytrace at hr
    rw [ht] at hr
    simp only [Option.map_eq_some'] at hr
    obtain ⟨c, _, hrc⟩ := hr
    rw [← hrc]

/-- Unit sphere at (0,0,5) with the ray starting ON its surface at
(0,0,4): the entering hit is at distance exactly `0`. -/
def sphereC1 : Sphere := { centre := ⟨0, 0, 5⟩, radius := 1, material := plainMaterial 0 }

def rayC1 : Ray := { position := ⟨0, 0, 4⟩, direction := ⟨0, 0, 1⟩ }

/-- Scene with the single sphere above and a material whose ambient term
is white, so a selected hit is visible in the output colour. -/
def sceneC1 : Scene :=
  { objects := [⟨fun r => Sphere.intersect defaultModel sphereC1 r⟩],
    lights := [],
    materials := fun _ =>
      { computeOnce := fun _ _ _ => Colour.white,
        computePerLight := fun _ _ _ => Colour.black } }

/-- Claim C1 (counterexample): for the ray starting on the sphere's
surface, NO hit has distance strictly greater than 0 with entering true
(the hits are entering at 0 and exiting at 2), so the claim demands colour
black and depth 0 — yet `Scene::raytrace` selects the distance-0 entering
hit and returns the material's white, because the source only rejects
`distance < 0.0`. -/
theorem claim1_counterexample :
    ((Sphere.intersect defaultModel sphereC1 rayC1).all
        fun h => !(h.entering && Fd.lt (.fin 0) h.distance)) = true
    ∧ Scene.raytrace defaultModel sceneC1 rayC1 0 = some ⟨Colour.white, .fin 0⟩ := by
  constructor
  · decide
  · decide

/-- Empty scene used by the C1 witness (miss branch). -/
def sceneC1empty : Scene :=
  { objects := [], lights := [],
    materials := fun _ =>
      { computeOnce := fun _ _ _ => Colour.black,
        computePerLight := fun _ _ _ => Colour.black } }

def hitC1sel : Hit := (Sphere.intersect defaultModel sphereC1 rayC1).getD 0 junkHit

theorem claim1_witness :
    Scene.raytrace defaultModel sceneC1empty rayC1 0 = some ⟨Colour.black, .fin 0⟩
    ∧ validHitB hitC1sel = true :=
  ⟨(claim1_raytrace_nearest defaultModel sceneC1empty rayC1 0).1 (by decide),
   ((claim1_raytrace_nearest defaultModel sceneC1 rayC1 0).2.2 hitC1sel
      (by decide)).1⟩

/-- Claim C4 (amended): `Scene::shadowtrace(ray, limit)` returns true iff
some object's SELECTED first hit — the nearest entering hit with
non-negative distance, per `select_first_hit` — has distance strictly
between `1e-7` and `limit`; hits that are not the object's selected first
hit (exiting hits, or entering hits behind a nearer one) are never tested
against the interval. -/
theorem claim4_shadowtrace_characterisation (s : Scene) (ray : Ray) (limit : ℚ) :
    Scene.shadowtrace s ray limit = true ↔
      ∃ o ∈ s.objects, ∃ h, Scene.selectFirstHit (o.intersect ray) = some h
        ∧ Fd.lt (.fin (1 / 10000000)) h.distance = true
        ∧ Fd.lt h.distance (.fin limit) = true := by
  unfold Scene.shadowtrace
  rw [List.any_eq_true]
  constructor
  · rintro ⟨o, omem, hp⟩
    cases hsel : Scene.selectFirstHit (o.intersect ray) with
    | none => rw [hsel] at hp; exact absurd hp (by simp)
    | some h =>
      rw [hsel] at hp
      simp only [Bool.and_eq_true] at hp
      exact ⟨o, omem, h, hsel, hp.1, hp.2⟩
  · rintro ⟨o, omem, h, hsel, h1, h2⟩
    refine ⟨o, omem, ?_⟩
    rw [hsel]
    simp only [Bool.and_eq_true]
    exact ⟨h1, h2⟩

/-- Unit sphere at (0,0,1) with the shadow ray starting on its surface:
the selected entering hit is at distance 0 (not in `(1e-7, limit)`), but
the exiting hit at distance 2 IS strictly between `1e-7` and the limit 3. -/
def sphereC4 : Sphere := { centre := ⟨0, 0, 1⟩, radius := 1, material := plainMaterial 0 }

def sceneC4 : Scene :=
  { objects := [⟨fun r => Sphere.intersect defaultModel sphereC4 r⟩],
    lights := [],
    materials := fun _ =>
      { computeOnce := fun _ _ _ => Colour.black,
        computePerLight := fun _ _ _ => Colour.black } }

def rayC4 : Ray := { position := ⟨0, 0, 0⟩, direction := ⟨0, 0, 1⟩ }

/-- Claim C4 (counterexample): the sphere produces a hit (the exit at
distance 2) strictly between `1e-7` and the limit 3, so the claim says
`shadowtrace` must return true — but it returns false, because only the
object's selected first hit (the entering hit at distance 0) is tested. -/
theorem claim4_counterexample :
    ((Sphere.intersect defaultModel sphereC4 rayC4).any
        fun h => Fd.lt (.fin (1 / 10000000)) h.distance
          && Fd.lt h.distance (.fin 3)) = true
    ∧ Scene.shadowtrace sceneC4 rayC4 3 = false := by
  constructor
  · decide
  · decide

/-- `core/hit.rs`: the fixed capacity of the stack-allocated hit buffer. -/
def HITVEC_SIZE : ℕ := 6

/-- `HitVec::push`: appends below capacity; at capacity the source
executes `panic!("HitVec overflow")`, modelled as `none`. -/
def HitVec.push (hv : List Hit) (h : Hit) : Option (List Hit) :=
  if HITVEC_SIZE ≤ hv.length then none else some (hv ++ [h])

/-- `objects/csg_object.rs`. -/
inductive CsgMode where
  | union
  | intersection
  | difference

inductive CsgAction where
  | aEnter
  | aExit
  | aDrop
  | bEnter
  | bExit
  | bDrop
deriving DecidableEq

/-- The per-mode action tables of `Csg::intersect`, indexed by the state
`4*leftEntering + 2*rightEntering + (left.distance > right.distance)`. -/
def csgActions (mode : CsgMode) : ℕ → CsgAction
  | s =>
    (match mode with
      | .union =>
          [CsgAction.aDrop, .bDrop, .aExit, .bDrop, .aDrop, .bExit, .aEnter, .bEnter]
      | .intersection =>
          [CsgAction.aExit, .bExit, .aDrop, .bEnter, .aEnter, .bDrop, .aDrop, .bDrop]
      | .difference =>
          [CsgAction.aDrop, .bEnter, .aExit, .bExit, .aDrop, .bDrop, .aEnter, .bDrop]
    ).getD s .aDrop

/-- The merge loop of `Csg::intersect`: while both streams are nonempty,
fire the table action for the three-bit state, rewriting the entering flag
of emitted hits from the action; stops when a stream is exhausted and
returns the buffer plus both remainders.  `none` models the `HitVec`
overflow panic.  The loop consumes one hit per iteration; the `fuel`
argument is the standard structural-recursion bound on the combined
length (`Csg.merge` below instantiates it exactly, and
`Csg.mergeFuel_irrelevant` shows any sufficient fuel gives the same
result, so the `fuel = 0` branch is unreachable). -/
def Csg.mergeFuel (mode : CsgMode) :
    ℕ → List Hit → List Hit → List Hit → Option (List Hit × List Hit × List Hit)
  | _, [], rs, acc => some (acc, [], rs)
  | _, lh :: lt, [], acc => some (acc, lh :: lt, [])
  | 0, _ :: _, _ :: _, _ => none
  | n + 1, lh :: lt, rh :: rt, acc =>
    let state := (if lh.entering then 4 else 0) + (if rh.entering then 2 else 0)
      + (if Fd.lt rh.distance lh.distance then 1 else 0)
    match csgActions mode state with
    | .aEnter =>
        (HitVec.push acc { lh with entering := true }).bind
          (Csg.mergeFuel mode n lt (rh :: rt))
    | .aExit =>
        (HitVec.push acc { lh with entering := false }).bind
          (Csg.mergeFuel mode n lt (rh :: rt))
    | .aDrop => Csg.mergeFuel mode n lt (rh :: rt) acc
    | .bEnter =>
        (HitVec.push acc { rh with entering := true }).bind
          (Csg.mergeFuel mode n (lh :: lt) rt)
    | .bExit =>
        (HitVec.push acc { rh with entering := false }).bind
          (Csg.mergeFuel mode n (lh :: lt) rt)
    | .bDrop => Csg.mergeFuel mode n (lh :: lt) rt acc

def Csg.merge (mode : CsgMode) (l r acc : List Hit) :
    Option (List Hit × List Hit × List Hit) :=
  Csg.mergeFuel mode (l.length + r.length) l r acc

lemma Csg.mergeFuel_nil_left (mode : CsgMode) (f : ℕ) (rs acc : List Hit) :
    Csg.mergeFuel mode f [] rs acc = some (acc, [], rs) := by
  cases f <;> rfl

lemma Csg.mergeFuel_nil_right (mode : CsgMode) (f : ℕ) (lh : Hit)
    (lt acc : List Hit) :
    Csg.mergeFuel mode f (lh :: lt) [] acc = some (acc, lh :: lt, []) := by
  cases f <;> rfl

/-- Any fuel at least the combined stream length gives the canonical
result: the loop consumes one hit per iteration, so the artificial
`fuel = 0` branch of `Csg.mergeFuel` is never taken by `Csg.merge`. -/
lemma Csg.mergeFuel_irrelevant (mode : CsgMode) :
    ∀ (n : ℕ) (l r acc : List Hit), l.length + r.length ≤ n →
      Csg.mergeFuel mode n l r acc = Csg.merge mode l r acc := by
  intro n
  induction n with
  | zero =>
    intro l r acc hle
    cases l with
    | nil => rw [Csg.mergeFuel_nil_left, Csg.merge, Csg.mergeFuel_nil_left]
    | cons lh lt =>
      cases r with
      | nil => rw [Csg.mergeFuel_nil_right, Csg.merge, Csg.mergeFuel_nil_right]
      | cons rh rt => simp only [List.length_cons] at hle; omega
  | succ n ih =>
    intro l r acc hle
    cases l with
    | nil => rw [Csg.mergeFuel_nil_left, Csg.merge, Csg.mergeFuel_nil_left]
    | cons lh lt =>
      cases r with
      | nil => rw [Csg.mergeFuel_nil_right, Csg.merge, Csg.mergeFuel_nil_right]
      | cons rh rt =>
        have hlen2 : (lh :: lt).length + (rh :: rt).length
            = ((lh :: lt).length + rt.length) + 1 := by
          simp only [List.length_cons]; omega
        have hleA : lt.length + (rh :: rt).length ≤ n := by
          simp only [List.length_cons] at hle ⊢; omega
        have hleB : (lh :: lt).length + rt.length ≤ n := by
          simp only [List.length_cons] at hle ⊢; omega
        have recA : ∀ acc2, Csg.mergeFuel mode n lt (rh :: rt) acc2
            = Csg.mergeFuel mode ((lh :: lt).length + rt.length)
                lt (rh :: rt) acc2 := by
          intro acc2
          rw [ih lt (rh :: rt) acc2 hleA]
          unfold Csg.merge
          have he : lt.length + (rh :: rt).length
              = (lh :: lt).length + rt.length := by
            simp only [List.length_cons]; omega
          rw [he]
        have recB : ∀ acc2, Csg.mergeFuel mode n (lh :: lt) rt acc2
            = Csg.mergeFuel mode ((lh :: lt).length + rt.length)
                (lh :: lt) rt acc2 := by
          intro acc2
          rw [ih (lh :: lt) rt acc2 hleB]
          rfl
        unfold Csg.merge
        rw [hlen2]
        show Csg.mergeFuel mode (n + 1) (lh :: lt) (rh :: rt) acc
          = Csg.mergeFuel mode (((lh :: lt).length + rt.length) + 1)
              (lh :: lt) (rh :: rt) acc
        unfold Csg.mergeFuel
        simp only []
        cases hact : csgActions mode
            ((if lh.entering then 4 else 0) + (if rh.entering then 2 else 0)
              + (if Fd.lt rh.distance lh.distance then 1 else 0)) <;>
          simp only [hact] <;>
          first
            | exact Option.bind_congr fun a _ => recA a
            | exact Option.bind_congr fun a _ => recB a
            | exact recA acc
            | exact recB acc

/-- Sequential `hit_vec.push` of a remainder (post-loop passthrough). -/
def hitsPushAll (acc : Option (List Hit)) (hs : List Hit) : Option (List Hit) :=
  hs.foldl (fun a h => a.bind fun v => HitVec.push v h) acc

/-- `Csg::intersect` on the two children's hit streams: merge, then pass
through the remainder Union keeps (both), Difference keeps (left only) or
Intersection drops. -/
def Csg.intersectHits (mode : CsgMode) (leftHits rightHits : List Hit) :
    Option (List Hit) :=
  (Csg.merge mode leftHits rightHits []).bind fun r =>
    match mode with
    | .difference => hitsPushAll (some r.1) r.2.1
    | .union => hitsPushAll (hitsPushAll (some r.1) r.2.1) r.2.2
    | .intersection => some r.1

/-- `Csg::intersect` for children given by their intersect functions. -/
def Csg.intersect (mode : CsgMode) (left right : Ray → List Hit) (ray : Ray) :
    Option (List Hit) :=
  Csg.intersectHits mode (left ray) (right ray)

lemma Hit.withEntering_eq {h : Hit} {b : Bool} (hb : h.entering = b) :
    { h with entering := b } = h := by
  cases h; cases hb; rfl

/-- Claim C3 (counterexample): for the unit sphere A at (0,0,5) and the
ray from the origin along +z (hits enter@4, exit@6),
`Difference(A, A)` does not produce "no hits": the merge emits the
degenerate pair enter@4, exit@4 (the right stream's entering hit is
re-emitted as an exit before the left stream is exhausted). -/
theorem claim3_counterexample :
    (Csg.intersectHits .difference (Sphere.intersect defaultModel sphereC2 rayC2)
        (Sphere.intersect defaultModel sphereC2 rayC2)).map
        (fun l => l.map fun h => (h.distance, h.entering))
      = some [(Fd.fin 4, true), (Fd.fin 4, false)]
    ∧ (Csg.intersectHits .difference (Sphere.intersect defaultModel sphereC2 rayC2)
        (Sphere.intersect defaultModel sphereC2 rayC2)) ≠ some [] := by
  constructor
  · decide
  · decide

/-- Claim C3 (amended): for a closed primitive whose hit stream along the
ray is a strict pair — entering at t0, exiting at t1, with t0 < t1 —
`Union(A, A)` and `Intersection(A, A)` reproduce A's hit stream exactly,
but `Difference(A, A)` produces the degenerate zero-width pair
(enter at t0, exit at t0) rather than no hits.  (For tangent rays with
t0 = t1 even the Union/Intersection equalities fail.) -/
theorem claim3_csg_on_identical_pairs (h0 h1 : Hit) (he0 : h0.entering = true)
    (he1 : h1.entering = false) (hlt : Fd.lt h0.distance h1.distance = true) :
    Csg.intersectHits .union [h0, h1] [h0, h1] = some [h0, h1]
    ∧ Csg.intersectHits .intersection [h0, h1] [h0, h1] = some [h0, h1]
    ∧ Csg.intersectHits .difference [h0, h1] [h0, h1]
        = some [h0, { h0 with entering := false }] := by
  have hlt01 : Fd.lt h1.distance h0.distance = false := Fd.lt_asymm hlt
  refine ⟨?_, ?_, ?_⟩ <;>
    simp [Csg.intersectHits, Csg.merge, Csg.mergeFuel, csgActions, HitVec.push,
      hitsPushAll, he0, he1, hlt, hlt01, Fd.lt_irrefl, Hit.withEntering_eq he0,
      Hit.withEntering_eq he1, HITVEC_SIZE]

def hitC3a : Hit := (Sphere.intersect defaultModel sphereC2 rayC2).getD 0 junkHit

def hitC3b : Hit := (Sphere.intersect defaultModel sphereC2 rayC2).getD 1 junkHit

theorem claim3_witness :
    Csg.intersectHits .union [hitC3a, hitC3b] [hitC3a, hitC3b]
        = some [hitC3a, hitC3b]
    ∧ Csg.intersectHits .intersection [hitC3a, hitC3b] [hitC3a, hitC3b]
        = some [hitC3a, hitC3b]
    ∧ Csg.intersectHits .difference [hitC3a, hitC3b] [hitC3a, hitC3b]
        = some [hitC3a, { hitC3a with entering := false }] :=
  claim3_csg_on_identical_pairs hitC3a hitC3b (by decide) (by decide) (by decide)

/-- Claim C9 (amended): the hit-buffer capacity is fixed at 6 and
`HitVec::push` neither raises it nor discards the new hit: below capacity
the hit is appended, at capacity the push panics ("HitVec overflow"),
which aborts rendering rather than continuing. -/
theorem claim9_push_overflow_panics (hv : List Hit) (h : Hit) :
    (6 ≤ hv.length → HitVec.push hv h = none)
    ∧ (hv.length < 6 → HitVec.push hv h = some (hv ++ [h])) := by
  constructor
  · intro hle
    unfold HitVec.push HITVEC_SIZE
    simp [hle]
  · intro hlt
    unfold HitVec.push HITVEC_SIZE
    simp [Nat.not_le.mpr hlt]

theorem claim9_witness :
    HitVec.push (List.replicate 6 junkHit) junkHit = none
    ∧ HitVec.push [junkHit] junkHit = some ([junkHit] ++ [junkHit]) :=
  ⟨(claim9_push_overflow_panics (List.replicate 6 junkHit) junkHit).1 (by decide),
   (claim9_push_overflow_panics [junkHit] junkHit).2 (by decide)⟩

def sphereAt (z : ℚ) : Sphere :=
  { centre := ⟨0, 0, z⟩, radius := 1, material := plainMaterial 0 }

/-- Union of the spheres at z = 5 and z = 15 along the +z axis ray: four
hits. -/
def unionHits12 : List Hit :=
  (Csg.intersectHits .union (Sphere.intersect defaultModel (sphereAt 5) rayC2)
    (Sphere.intersect defaultModel (sphereAt 15) rayC2)).getD []

/-- Union of the spheres at z = 25 and z = 35 along the same ray. -/
def unionHits34 : List Hit :=
  (Csg.intersectHits .union (Sphere.intersect defaultModel (sphereAt 25) rayC2)
    (Sphere.intersect defaultModel (sphereAt 35) rayC2)).getD []

/-- Claim C9 (counterexample): a CSG union of unions of four disjoint
spheres yields 8 hits along one ray, exceeding the capacity of 6; the
top-level `Csg::intersect` neither raises the capacity (which would give
all 8 hits) nor discards the deeper hits and continues (which would give
6): it hits the `panic!("HitVec overflow")` — modelled as `none` — and
the rendering process aborts. -/
theorem claim9_counterexample :
    unionHits12.length = 4 ∧ unionHits34.length = 4
    ∧ Csg.intersectHits .union unionHits12 unionHits34 = none := by
  refine ⟨by decide, by decide, by decide⟩

/-- `objects/plane_object.rs`. -/
structure Plane where
  centre : Vertex
  up : Vector
  normal : Vector
  d : ℚ
  material : GeomMaterial

/-- `Plane::new_raw` (the constructor `Plane::new_from_point` the cuboid
calls is absent from the snapshot; it carries the same four arguments and
is modelled as `new_raw`, the only shipped constructor computing
`d = -normal·point`). -/
def Plane.newRaw (point : Vertex) (up normal : Vector) (mat : GeomMaterial) :
    Plane :=
  { centre := point, up := up, normal := normal,
    d := -(normal.dot point.vector), material := mat }

/-- `Plane::intersect`: two-sided, always emitting a matched pair with an
infinity sentinel on the unbounded side; parallel rays inside the
half-space yield the double-sentinel pair, outside none. -/
def Plane.intersect (m : NumModel) (p : Plane) (ray : Ray) : List Hit :=
  let U := p.normal.dot ray.position.vector + p.d
  let V := p.normal.dot ray.direction
  if V = 0 then
    if U ≥ 0 then
      [Hit.infinity true .ninf p.material.id, Hit.infinity false .pinf p.material.id]
    else []
  else
    let t := U / -V
    if V > 0 then
      [Hit.infinity true .ninf p.material.id,
       { distance := .fin t, entering := false,
         position := ray.position.addVec (ray.direction.smul t),
         normal := p.normal.negated, material := p.material.id, texCoords := none }]
    else
      let position := ray.position.addVec (ray.direction.smul t)
      let fromCenter := position.vector.sub p.centre.vector
      let vUnit := p.up.normalised m
      let uUnit := (vUnit.cross p.normal).normalised m
      let tex : TexCoords := ⟨fromCenter.dot uUnit, fromCenter.dot vUnit⟩
      let normal := match p.material.normal tex with
        | some nmap =>
            nmap.toTangentSpace m ((p.normal.cross p.up).normalised m) p.normal
        | none => p.normal
      [{ distance := .fin t, entering := true, position := position,
         normal := normal, material := p.material.id, texCoords := some tex },
       Hit.infinity false .pinf p.material.id]

/-- `objects/cuboid_object.rs`. -/
structure Cuboid where
  corner : Vertex
  size : Vector
  material : GeomMaterial

/-- `Cuboid::get_planes`, in the iteration order
`[left, right, up, down, front, back]` of `CuboidPlanes::iter`. -/
def Cuboid.getPlanes (c : Cuboid) : List Plane :=
  let fdl := c.corner
  let ful := c.corner.addVec ⟨0, c.size.y, 0⟩
  let bdl := c.corner.addVec ⟨0, 0, c.size.z⟩
  let bdr := c.corner.addVec ⟨c.size.x, 0, c.size.z⟩
  let up : Vector := ⟨0, 1, 0⟩
  let down : Vector := ⟨0, -1, 0⟩
  let left : Vector := ⟨-1, 0, 0⟩
  let right : Vector := ⟨1, 0, 0⟩
  let forwards : Vector := ⟨0, 0, 1⟩
  let backwards : Vector := ⟨0, 0, -1⟩
  [Plane.newRaw fdl up left c.material,
   Plane.newRaw bdr up right c.material,
   Plane.newRaw ful forwards up c.material,
   Plane.newRaw fdl forwards down c.material,
   Plane.newRaw fdl up backwards c.material,
   Plane.newRaw bdl down forwards c.material]

/-- The `inside` test of `Cuboid::intersect` (ε = 1e-4 slack per axis). -/
def Cuboid.insideSlack (c : Cuboid) (p : Vertex) : Bool :=
  decide (c.corner.x - 1 / 10000 ≤ p.x)
    && decide (p.x ≤ c.corner.x + c.size.x + 1 / 10000)
    && decide (c.corner.y - 1 / 10000 ≤ p.y)
    && decide (p.y ≤ c.corner.y + c.size.y + 1 / 10000)
    && decide (c.corner.z - 1 / 10000 ≤ p.z)
    && decide (p.z ≤ c.corner.z + c.size.z + 1 / 10000)

/-- The body of the inner loop of `Cuboid::intersect`: skip hits outside
the box, with negative distance ("behind the camera") or at infinity;
otherwise update the `first_hit`/`back_hit` slots with the source's
(inverted, see the commented-out original lines) replacement conditions. -/
def cuboidConsider (c : Cuboid) (acc : Option Hit × Option Hit) (hit : Hit) :
    Option Hit × Option Hit :=
  if !(c.insideSlack hit.position) then acc
  else if Fd.lt hit.distance (.fin 0) then acc
  else if hit.distance.isInfinite then acc
  else if hit.entering then
    if !(match acc.1 with
          | some h => Fd.lt hit.distance h.distance
          | none => false) then (some hit, acc.2) else acc
  else
    if !(match acc.2 with
          | some h => Fd.lt h.distance hit.distance
          | none => false) then (acc.1, some hit) else acc

/-- `Cuboid::intersect`. -/
def Cuboid.intersect (m : NumModel) (c : Cuboid) (ray : Ray) : List Hit :=
  let r := c.getPlanes.foldl
    (fun acc pl => (pl.intersect m ray).foldl (cuboidConsider c) acc)
    ((none : Option Hit), (none : Option Hit))
  (match r.1 with | some h => [h] | none => [])
    ++ (match r.2 with | some h => [h] | none => [])

/-- A hit the cuboid loop is allowed to keep: non-negative finite
distance. -/
def cuboidKeptB (h : Hit) : Bool :=
  !(Fd.lt h.distance (.fin 0)) && !h.distance.isInfinite

def cuboidAccInv (acc : Option Hit × Option Hit) : Prop :=
  (∀ h, acc.1 = some h → cuboidKeptB h = true)
    ∧ (∀ h, acc.2 = some h → cuboidKeptB h = true)

lemma cuboidConsider_inv (c : Cuboid) (acc : Option Hit × Option Hit)
    (hit : Hit) (hacc : cuboidAccInv acc) :
    cuboidAccInv (cuboidConsider c acc hit) := by
  unfold cuboidConsider
  split
  · exact hacc
  · split
    · exact hacc
    · split
      · exact hacc
      · rename_i hneg hinf
        have hkept : cuboidKeptB hit = true := by
          unfold cuboidKeptB
          rw [Bool.and_eq_true, Bool.not_eq_true', Bool.not_eq_true']
          exact ⟨eq_false_of_ne_true hneg, eq_false_of_ne_true hinf⟩
        split
        · split
          · exact ⟨fun h hh => by injection hh with he; rw [← he]; exact hkept,
              hacc.2⟩
          · exact hacc
        · split
          · exact ⟨hacc.1,
              fun h hh => by injection hh with he; rw [← he]; exact hkept⟩
          · exact hacc

lemma cuboidFold_inv (c : Cuboid) (hits : List Hit) :
    ∀ acc, cuboidAccInv acc → cuboidAccInv (hits.foldl (cuboidConsider c) acc) := by
  induction hits with
  | nil => intro acc hacc; exact hacc
  | cons hd tl ih =>
    intro acc hacc
    rw [List.foldl_cons]
    exact ih _ (cuboidConsider_inv c acc hd hacc)

lemma cuboidPlanesFold_inv (m : NumModel) (c : Cuboid) (ray : Ray)
    (planes : List Plane) :
    ∀ acc, cuboidAccInv acc →
      cuboidAccInv (planes.foldl
        (fun acc pl => (pl.intersect m ray).foldl (cuboidConsider c) acc) acc) := by
  induction planes with
  | nil => intro acc hacc; exact hacc
  | cons pl tl ih =>
    intro acc hacc
    rw [List.foldl_cons]
    exact ih _ (cuboidFold_inv c _ acc hacc)

/-- Claim C7 (amended): the cuboid is the exception to the
negative-distance rule: `Cuboid::intersect` never emits a hit with
negative (or infinite) distance — it filters them inside the primitive,
commented "behind the camera" — while the other primitives (here: the
sphere, shown on a ray past the sphere) do emit negative-distance hits
and leave filtering to the consumers. -/
theorem claim7_negative_hit_policy :
    (∀ (m : NumModel) (c : Cuboid) (ray : Ray) (h : Hit),
        h ∈ Cuboid.intersect m c ray →
          Fd.lt h.distance (.fin 0) = false ∧ h.distance.isInfinite = false)
    ∧ (Sphere.intersect defaultModel sphereC1
        { position := ⟨0, 0, 10⟩, direction := ⟨0, 0, 1⟩ }).map
          (fun h => h.distance) = [.fin (-6), .fin (-4)] := by
  constructor
  · intro m c ray h hmem
    unfold Cuboid.intersect at hmem
    have hinv := cuboidPlanesFold_inv m c ray c.getPlanes
      ((none : Option Hit), (none : Option Hit)) ⟨by simp, by simp⟩
    set r := c.getPlanes.foldl
      (fun acc pl => (pl.intersect m ray).foldl (cuboidConsider c) acc)
      ((none : Option Hit), (none : Option Hit)) with hr
    have hkept : cuboidKeptB h = true := by
      rcases List.mem_append.mp hmem with hm | hm
      · cases h1 : r.1 with
        | none => rw [h1] at hm; exact absurd hm (by simp)
        | some hh =>
          rw [h1] at hm
          simp only [List.mem_singleton] at hm
          rw [hm]
          exact hinv.1 hh h1
      · cases h2 : r.2 with
        | none => rw [h2] at hm; exact absurd hm (by simp)
        | some hh =>
          rw [h2] at hm
          simp only [List.mem_singleton] at hm
          rw [hm]
          exact hinv.2 hh h2
    unfold cuboidKeptB at hkept
    rw [Bool.and_eq_true, Bool.not_eq_true', Bool.not_eq_true'] at hkept
    exact hkept
  · decide

/-- Cuboid and rays used to settle claim C7 concretely. -/
def cubC7 : Cuboid := { corner := ⟨0, 0, 0⟩, size := ⟨1, 1, 1⟩, material := plainMaterial 0 }

/-- Ray starting past the cuboid, pointing away: both z-plane hits have
negative distance and land inside the box. -/
def rayC7 : Ray := { position := ⟨1/2, 1/2, 2⟩, direction := ⟨0, 0, 1⟩ }

/-- The cuboid's front plane (index 4 of `get_planes`). -/
def frontPlaneC7 : Plane :=
  (cubC7.getPlanes).getD 4 (Plane.newRaw ⟨0, 0, 0⟩ ⟨0, 1, 0⟩ ⟨0, 0, 1⟩ (plainMaterial 0))

/-- Claim C7 (counterexample): the front plane of the cuboid produces a
finite negative-distance hit whose position is inside the box, but
`Cuboid::intersect` returns NO hits for this ray — the negative hit is
filtered inside the primitive, not by the consumers. -/
theorem claim7_counterexample :
    Cuboid.intersect defaultModel cubC7 rayC7 = []
    ∧ ((frontPlaneC7.intersect defaultModel rayC7).any
        fun h => Fd.lt h.distance (.fin 0) && !h.distance.isInfinite
          && cubC7.insideSlack h.position) = true := by
  constructor
  · decide
  · decide

def rayC7w : Ray := { position := ⟨1/2, 1/2, -2⟩, direction := ⟨0, 0, 1⟩ }

def hitC7w : Hit := (Cuboid.intersect defaultModel cubC7 rayC7w).getD 0 junkHit

theorem claim7_witness :
    Fd.lt hitC7w.distance (.fin 0) = false ∧ hitC7w.distance.isInfinite = false :=
  claim7_negative_hit_policy.1 defaultModel cubC7 rayC7w hitC7w (by decide)

/-- `materials/material.rs`: a refracted ray plus its Fresnel
reflectance. -/
structure RefractionResult where
  ray : Ray
  kr : ℚ
deriving DecidableEq

/-- `materials/global_material.rs`. -/
structure GlobalMaterial where
  reflectWeight : ℚ
  refractWeight : ℚ
  ior : ℚ

/-- `GlobalMaterial::refraction`: Snell's law with unpolarised Fresnel
reflectance `kr = (r_par² + r_per²) / 2`; `none` when the refract weight
is zero or under total internal reflection (the source detects TIR as
`cos_θ_t.is_nan()`, i.e. a negative radicand). -/
def GlobalMaterial.refraction (m : NumModel) (gm : GlobalMaterial) (hit : Hit)
    (incoming : Vector) : Option RefractionResult :=
  if gm.refractWeight = 0 then none
  else
    let D := incoming
    let I := D.negated
    let cosi0 := hit.normal.dot I
    let N := if hit.entering then hit.normal.negated else hit.normal
    let cosi := if hit.entering then cosi0 else -cosi0
    let eta1 := if hit.entering then (1 : ℚ) else gm.ior
    let eta2 := if hit.entering then gm.ior else (1 : ℚ)
    let arg := 1 - (eta1 / eta2) ^ 2 * (1 - cosi ^ 2)
    if arg < 0 then none
    else
      let cost := m.sqrt arg
      let T0 := (I.smul (eta1 / eta2)).sub (N.smul (cost - eta1 / eta2 * cosi))
      let T := (T0.normalised m).negated
      let rpar := (eta2 * cosi - eta1 * cost) / (eta2 * cosi + eta1 * cost)
      let rper := (eta1 * cosi - eta2 * cost) / (eta1 * cosi + eta2 * cost)
      let kr := (rpar ^ 2 + rper ^ 2) / 2
      some { ray := { position := hit.position.addVec (T.smul (1 / 10000)),
                      direction := T },
             kr := kr }

/-- The reflected ray spawned by `GlobalMaterial::compute_once`: reflect
the viewer direction about the hit normal and offset the origin by
`1e-4` along it. -/
def globalReflRay (m : NumModel) (hit : Hit) (viewer : Ray) : Ray :=
  let rdir := (hit.normal.reflection viewer.direction).normalised m
  { position := hit.position.addVec (rdir.smul (1 / 10000)), direction := rdir }

/-- The weighted reflected colour (`R` of the spec), with the recursive
`scene.raytrace(reflection_ray, depth + 1).colour` supplied by the oracle
`rt`. -/
def reflTerm (m : NumModel) (gm : GlobalMaterial) (rt : Ray → ℕ → Colour)
    (viewer : Ray) (hit : Hit) (depth : ℕ) : Colour :=
  (rt (globalReflRay m hit viewer) (depth + 1)).smul gm.reflectWeight

/-- The weighted refracted colour (`T` of the spec) for a given
refraction result. -/
def refrTerm (gm : GlobalMaterial) (rt : Ray → ℕ → Colour)
    (rr : RefractionResult) (depth : ℕ) : Colour :=
  (rt rr.ray (depth + 1)).smul gm.refractWeight

/-- `GlobalMaterial::compute_once`, with the scene's recursive raytrace
supplied as the oracle `rt` (the source recurses mutually through the
scene; the claim concerns the cap and the combination logic). -/
def GlobalMaterial.computeOnce (m : NumModel) (gm : GlobalMaterial)
    (rt : Ray → ℕ → Colour) (viewer : Ray) (hit : Hit) (depth : ℕ) : Colour :=
  if 5 ≤ depth then Colour.black
  else
    let reflectionColour : Option Colour :=
      if gm.reflectWeight > 0 then some (reflTerm m gm rt viewer hit depth)
      else none
    let refr : Option Colour × ℚ :=
      if gm.refractWeight > 0 then
        match gm.refraction m hit viewer.direction with
        | some rr => (some (refrTerm gm rt rr depth), rr.kr)
        | none => (none, 0)
      else (none, 0)
    match reflectionColour, refr.1 with
    | some rc, some tc => (rc.smul refr.2).add (tc.smul (1 - refr.2))
    | some rc, none => rc
    | none, some tc => tc
    | none, none => Colour.black

/-- Claim C5: `GlobalMaterial::compute_once` returns black at depth ≥ 5
regardless of weights; below the cap it returns `kr·R + (1-kr)·T` when
both the reflected colour R and refracted colour T are computed (kr being
the unpolarised Fresnel reflectance produced by `refraction`), the single
term when exactly one is computed, and black when neither is. -/
theorem claim5_compute_once_combination (m : NumModel) (gm : GlobalMaterial)
    (rt : Ray → ℕ → Colour) (viewer : Ray) (hit : Hit) (depth : ℕ) :
    (5 ≤ depth → GlobalMaterial.computeOnce m gm rt viewer hit depth = Colour.black)
    ∧ (depth < 5 →
        (0 < gm.reflectWeight → 0 < gm.refractWeight → ∀ rr,
            gm.refraction m hit viewer.direction = some rr →
            GlobalMaterial.computeOnce m gm rt viewer hit depth
              = ((reflTerm m gm rt viewer hit depth).smul rr.kr).add
                  ((refrTerm gm rt rr depth).smul (1 - rr.kr)))
        ∧ (0 < gm.reflectWeight →
            (gm.refractWeight ≤ 0 ∨ gm.refraction m hit viewer.direction = none) →
            GlobalMaterial.computeOnce m gm rt viewer hit depth
              = reflTerm m gm rt viewer hit depth)
        ∧ (gm.reflectWeight ≤ 0 → ∀ rr, 0 < gm.refractWeight →
            gm.refraction m hit viewer.direction = some rr →
            GlobalMaterial.computeOnce m gm rt viewer hit depth
              = refrTerm gm rt rr depth)
        ∧ (gm.reflectWeight ≤ 0 →
            (gm.refractWeight ≤ 0 ∨ gm.refraction m hit viewer.direction = none) →
            GlobalMaterial.computeOnce m gm rt viewer hit depth = Colour.black)) := by
  constructor
  · intro h5
    unfold GlobalMaterial.computeOnce
    rw [if_pos h5]
  · intro h5
    have h5n : ¬(5 ≤ depth) := Nat.not_le.mpr h5
    refine ⟨?_, ?_, ?_, ?_⟩
    · intro hrw hfw rr hrefr
      unfold GlobalMaterial.computeOnce
      rw [if_neg h5n]
      simp only [if_pos hrw, if_pos hfw, hrefr]
    · intro hrw hnone
      unfold GlobalMaterial.computeOnce
      rw [if_neg h5n]
      rcases hnone with hle | hnone
      · have : ¬(0 < gm.refractWeight) := not_lt.mpr hle
        simp only [if_pos hrw, if_neg this]
      · by_cases hfw : 0 < gm.refractWeight
        · simp only [if_pos hrw, if_pos hfw, hnone]
        · simp only [if_pos hrw, if_neg hfw]
    · intro hrw rr hfw hrefr
      have hrwn : ¬(0 < gm.reflectWeight) := not_lt.mpr hrw
      unfold GlobalMaterial.computeOnce
      rw [if_neg h5n]
      simp only [if_neg hrwn, if_pos hfw, hrefr]
    · intro hrw hnone
      have hrwn : ¬(0 < gm.reflectWeight) := not_lt.mpr hrw
      unfold GlobalMaterial.computeOnce
      rw [if_neg h5n]
      rcases hnone with hle | hnone
      · have : ¬(0 < gm.refractWeight) := not_lt.mpr hle
        simp only [if_neg hrwn, if_neg this]
      · by_cases hfw : 0 < gm.refractWeight
        · simp only [if_neg hrwn, if_pos hfw, hnone]
        · simp only [if_neg hrwn, if_neg hfw]

def gmC5 : GlobalMaterial := { reflectWeight := 1/2, refractWeight := 1, ior := 3 }

def rtC5 : Ray → ℕ → Colour := fun _ _ => Colour.white

def hitC5 : Hit :=
  { distance := .fin 1, entering := true, position := ⟨0, 0, 0⟩,
    normal := ⟨0, 0, -1⟩, material := 0, texCoords := none }

def viewerC5 : Ray := { position := ⟨0, 0, -1⟩, direction := ⟨0, 0, 1⟩ }

def rrC5 : RefractionResult :=
  (GlobalMaterial.refraction defaultModel gmC5 hitC5 viewerC5.direction).getD
    { ray := viewerC5, kr := 0 }

theorem claim5_witness :
    GlobalMaterial.computeOnce defaultModel gmC5 rtC5 viewerC5 hitC5 2
      = ((reflTerm defaultModel gmC5 rtC5 viewerC5 hitC5 2).smul rrC5.kr).add
          ((refrTerm gmC5 rtC5 rrC5 2).smul (1 - rrC5.kr))
    ∧ GlobalMaterial.computeOnce defaultModel gmC5 rtC5 viewerC5 hitC5 7
      = Colour.black :=
  ⟨((claim5_compute_once_combination defaultModel gmC5 rtC5 viewerC5 hitC5 2).2
      (by decide)).1 (by decide) (by decide) rrC5 (by decide),
   (claim5_compute_once_combination defaultModel gmC5 rtC5 viewerC5 hitC5 7).1
      (by decide)⟩

/-- `core/photon.rs`. -/
inductive PhotonType where
  | colour
  | shadow
  | caustic
  | vueon
deriving DecidableEq

structure Photon where
  position : Vertex
  incident : Vector
  intensity : Colour
  photonType : PhotonType
deriving DecidableEq

structure InFlightPhoton where
  origin : Vertex
  direction : Vector
  intensity : Colour
  photonType : PhotonType
deriving DecidableEq

/-- `InFlightPhoton::ray`. -/
def InFlightPhoton.ray (p : InFlightPhoton) : Ray :=
  { position := p.origin, direction := p.direction }

/-- `materials/material.rs`. -/
inductive PhotonBehaviour where
  | absorb
  | diffuse
  | specular
  | reflectOrRefract

/-- The photon-material queries `vueontrace` dispatches through a hit's
material handle. -/
structure PhotonMaterialFns where
  behaviourWeight : PhotonBehaviour → ℚ
  renderVueon : Hit → Photon → Vector → Colour
  refractedDirection : Hit → Vector → Option RefractionResult

/-- `environments/photon_scene.rs` as `vueontrace` sees it after
`pre_render`: objects, material table, and the photon-map neighbourhood
average (`average_photon_at`) abstracted as an oracle over the two built
k-d trees. -/
structure PhotonScene where
  objects : List Obj
  pmats : ℕ → PhotonMaterialFns
  averagePhotonAt : Hit → Option Photon

/-- `Environment::trace` for the photon scene (same selection loops). -/
def PhotonScene.trace (ps : PhotonScene) (ray : Ray) : Option Hit :=
  (ps.objects.foldl (traceStep ray) ((none : Option Hit), f32MAX)).1

/-- `PhotonScene::vueontrace`.  The source recursion carries NO depth
argument; the `fuel` argument is the structural bound of this embedding:
`none` means the recursion did not terminate within `fuel` nested view
bounces (the source would still be recursing), `some` is the result the
source returns. -/
def PhotonScene.vueontrace (m : NumModel) (ps : PhotonScene) :
    ℕ → InFlightPhoton → Option RaytraceResult
  | 0, _ => none
  | n + 1, vueon =>
    let ray := vueon.ray
    match ps.trace ray with
    | none => some { colour := Colour.black, depth := .fin 0 }
    | some hit =>
      let material := ps.pmats hit.material
      let surfaceWeight := material.behaviourWeight .absorb
        + material.behaviourWeight .diffuse + material.behaviourWeight .specular
      let surfaceColour := if surfaceWeight > 0 then
          match ps.averagePhotonAt hit with
          | some photon => material.renderVueon hit photon vueon.direction.negated
          | none => Colour.black
        else Colour.black
      let reflectWeight := material.behaviourWeight .reflectOrRefract
      let reflectVueon : InFlightPhoton :=
        { origin := hit.position.addVec (hit.normal.smul (1 / 10000)),
          direction := (hit.normal.reflection vueon.direction).normalised m,
          intensity := vueon.intensity, photonType := .colour }
      (if reflectWeight > 0 then
          (PhotonScene.vueontrace m ps n reflectVueon).map
            fun r => r.colour.smul reflectWeight
        else some Colour.black).bind fun reflectColour =>
      let refractWeight := material.behaviourWeight .reflectOrRefract
      (match material.refractedDirection hit ray.direction with
        | some rres =>
            (PhotonScene.vueontrace m ps n
              { origin := rres.ray.position.addVec (rres.ray.direction.smul (1 / 10000)),
                direction := rres.ray.direction,
                intensity := vueon.intensity, photonType := .colour }).map
              fun (r : RaytraceResult) => r.colour.smul refractWeight
        | none => some Colour.black).bind fun refractColour =>
      some { colour := ((surfaceColour.add reflectColour).add refractColour).divScalar
               (surfaceWeight + reflectWeight + refractWeight),
             depth := hit.distance }

/-- `PhotonScene::raytrace`: wrap the camera ray into a white view photon
and final-gather it. -/
def PhotonScene.raytrace (m : NumModel) (ps : PhotonScene) (fuel : ℕ)
    (ray : Ray) : Option RaytraceResult :=
  PhotonScene.vueontrace m ps fuel
    { origin := ray.position, direction := ray.direction,
      intensity := Colour.white, photonType := .vueon }

/-- `GlobalMaterial`'s `PhotonMaterial` impl: pure reflect-or-refract
(weights 0/0/0/1), the default black `render_vueon`, and `refraction` as
the refracted direction. -/
def GlobalMaterial.photonFns (m : NumModel) (gm : GlobalMaterial) :
    PhotonMaterialFns :=
  { behaviourWeight := fun b => match b with
      | .absorb => 0
      | .diffuse => 0
      | .specular => 0
      | .reflectOrRefract => 1,
    renderVueon := fun _ _ _ => Colour.black,
    refractedDirection := fun hit incoming => gm.refraction m hit incoming }

/-- A perfect mirror: full reflect weight, no refraction. -/
def mirrorGM : GlobalMaterial := { reflectWeight := 1, refractWeight := 0, ior := 1 }

/-- Two parallel mirror planes facing each other at z = 0 and z = 10. -/
def mirrorFloor : Plane :=
  Plane.newRaw ⟨0, 0, 0⟩ ⟨0, 1, 0⟩ ⟨0, 0, 1⟩ (plainMaterial 0)

def mirrorCeiling : Plane :=
  Plane.newRaw ⟨0, 0, 10⟩ ⟨0, 1, 0⟩ ⟨0, 0, -1⟩ (plainMaterial 0)

def mirrorScene : PhotonScene :=
  { objects := [⟨fun r => mirrorFloor.intersect defaultModel r⟩,
                ⟨fun r => mirrorCeiling.intersect defaultModel r⟩],
    pmats := fun _ => mirrorGM.photonFns defaultModel,
    averagePhotonAt := fun _ => none }

/-- The two view photons the mirror scene alternates between forever:
downward from just below the ceiling, upward from just above the floor. -/
def vueonDown : InFlightPhoton :=
  { origin := ⟨0, 0, 10 - 1/10000⟩, direction := ⟨0, 0, -1⟩,
    intensity := Colour.white, photonType := .colour }

def vueonUp : InFlightPhoton :=
  { origin := ⟨0, 0, 1/10000⟩, direction := ⟨0, 0, 1⟩,
    intensity := Colour.white, photonType := .colour }

lemma vueonStepDown (n : ℕ)
    (h : PhotonScene.vueontrace defaultModel mirrorScene n vueonUp = none) :
    PhotonScene.vueontrace defaultModel mirrorScene (n + 1) vueonDown = none := by
  have heq : PhotonScene.vueontrace defaultModel mirrorScene (n + 1) vueonDown
      = ((PhotonScene.vueontrace defaultModel mirrorScene n vueonUp).map
          fun (r : RaytraceResult) => r.colour.smul 1).bind fun reflectColour =>
        (some Colour.black).bind fun refractColour =>
        some { colour := ((Colour.black.add reflectColour).add
                 refractColour).divScalar (0 + 1 + 1),
               depth := .fin (10 - 1/10000) } := rfl
  rw [heq, h]
  rfl

lemma vueonStepUp (n : ℕ)
    (h : PhotonScene.vueontrace defaultModel mirrorScene n vueonDown = none) :
    PhotonScene.vueontrace defaultModel mirrorScene (n + 1) vueonUp = none := by
  have heq : PhotonScene.vueontrace defaultModel mirrorScene (n + 1) vueonUp
      = ((PhotonScene.vueontrace defaultModel mirrorScene n vueonDown).map
          fun (r : RaytraceResult) => r.colour.smul 1).bind fun reflectColour =>
        (some Colour.black).bind fun refractColour =>
        some { colour := ((Colour.black.add reflectColour).add
                 refractColour).divScalar (0 + 1 + 1),
               depth := .fin (10 - 1/10000) } := rfl
  rw [heq, h]
  rfl

lemma mirrorLoop_diverges (n : ℕ) :
    PhotonScene.vueontrace defaultModel mirrorScene n vueonDown = none
    ∧ PhotonScene.vueontrace defaultModel mirrorScene n vueonUp = none := by
  induction n with
  | zero => exact ⟨rfl, rfl⟩
  | succ n ih => exact ⟨vueonStepDown n ih.2, vueonStepUp n ih.1⟩

def rayC6 : Ray := { position := ⟨0, 0, 0⟩, direction := ⟨0, 0, 1⟩ }

/-- Claim C6 (amended): `PhotonScene::vueontrace` enforces NO recursion
depth cap at all — it carries no depth argument.  Between two facing
mirror planes the view recursion never terminates: for every fuel bound
the fuelled evaluator runs out of fuel (the source would recurse
forever), so in particular no 5-deep cap exists. -/
theorem claim6_vueontrace_uncapped (n : ℕ) :
    PhotonScene.raytrace defaultModel mirrorScene n rayC6 = none := by
  cases n with
  | zero => rfl
  | succ n =>
    have heq : PhotonScene.raytrace defaultModel mirrorScene (n + 1) rayC6
        = ((PhotonScene.vueontrace defaultModel mirrorScene n vueonDown).map
            fun (r : RaytraceResult) => r.colour.smul 1).bind fun reflectColour =>
          (some Colour.black).bind fun refractColour =>
          some { colour := ((Colour.black.add reflectColour).add
                   refractColour).divScalar (0 + 1 + 1),
                 depth := .fin 10 } := rfl
    rw [heq, (mirrorLoop_diverges n).1]
    rfl

/-- Claim C6 (counterexample): were the view recursion capped at 5 nested
levels like §4.2's evaluator, 7 fuel would be ample to terminate; instead
the mirror scene exhausts it. -/
theorem claim6_counterexample :
    PhotonScene.raytrace defaultModel mirrorScene 7 rayC6 = none := by
  decide

/-- `core/framebuffer.rs`: one pixel of colour and depth. -/
structure Pixel where
  colour : Colour
  depth : Fd
deriving DecidableEq

def Pixel.black : Pixel := { colour := Colour.black, depth := .fin 0 }

/-- `core/framebuffer.rs`. -/
structure Framebuffer where
  width : ℕ
  height : ℕ
  pixels : List Pixel
deriving DecidableEq

/-- `Framebuffer::new`: `panic!("Invalid framebuffer size")` — modelled
as `none` — when `width >= 2048 || height >= 2048`; otherwise a buffer of
`width * height` black pixels. -/
def Framebuffer.new (w h : ℕ) : Option Framebuffer :=
  if 2048 ≤ w ∨ 2048 ≤ h then none
  else some { width := w, height := h, pixels := List.replicate (w * h) Pixel.black }

/-- `Framebuffer::plot_pixel`: store the colour unchanged at
`y * width + x` (row-major). -/
def Framebuffer.plotPixel (fb : Framebuffer) (x y : ℕ) (c : Colour) : Framebuffer :=
  { fb with pixels := (fb.pixels.set (y * fb.width + x)
      ({ fb.pixels.getD (y * fb.width + x) Pixel.black with colour := c })) }

/-- `Framebuffer::plot_depth`. -/
def Framebuffer.plotDepth (fb : Framebuffer) (x y : ℕ) (d : Fd) : Framebuffer :=
  { fb with pixels := (fb.pixels.set (y * fb.width + x)
      ({ fb.pixels.getD (y * fb.width + x) Pixel.black with depth := d })) }

/-- `Framebuffer::get_colour`. -/
def Framebuffer.getColour (fb : Framebuffer) (x y : ℕ) : Colour :=
  (fb.pixels.getD (y * fb.width + x) Pixel.black).colour

/-- `Framebuffer::combine_rows`: width of the first tile (the source
indexes `framebuffers[0]`, so the default below is only reached on the
empty list the driver never passes), heights summed, pixel rows
concatenated in order. -/
def Framebuffer.combineRows (fbs : List Framebuffer) : Framebuffer :=
  { width := (fbs.headD (Framebuffer.mk 0 0 [])).width,
    height := (fbs.map Framebuffer.height).sum,
    pixels := (fbs.map Framebuffer.pixels).flatten }

/-- `FullCamera::render_rows`: shade every pixel of rows
`[startY, endY)` into a fresh tile, writing colour then depth at the
tile-local row `y - startY`.  The camera/environment pair is abstracted
into the deterministic per-pixel result `f x y`
(`environment.raytrace(get_ray_pixel(x, y))`); the `FrameBuffer::new`
size panic propagates as `none`. -/
def Camera.renderRows (f : ℕ → ℕ → RaytraceResult) (w startY endY : ℕ) :
    Option Framebuffer :=
  (Framebuffer.new w (endY - startY)).map fun fb0 =>
    (List.range' startY (endY - startY)).foldl
      (fun fb y =>
        (List.range w).foldl
          (fun fb x =>
            (fb.plotPixel x (y - startY) (f x y).colour).plotDepth x (y - startY)
              (f x y).depth)
          fb)
      fb0

/-- The row bands of `Camera::render`: worker i starts at
`i * (h / W)`. -/
def bandStart (W h i : ℕ) : ℕ := i * (h / W)

/-- ... and ends at `(i+1) * (h / W)`, the last worker absorbing the
remainder `h % W`. -/
def bandEnd (W h i : ℕ) : ℕ :=
  (i + 1) * (h / W) + (if i = W - 1 then h % W else 0)

/-- `thread.join().unwrap()` over the worker tiles in spawn order: a
panicked worker (`none`) aborts the whole render. -/
def joinAll : List (Option Framebuffer) → Option (List Framebuffer)
  | [] => some []
  | none :: _ => none
  | some fb :: rest => (joinAll rest).map fun fbs => fb :: fbs

/-- `Camera::render` with `W` workers: render each band into a tile, join
every worker (unwrapping its panic), and concatenate the tiles in row
order.  (Workers are data-parallel; the concatenation is the
deterministic `combine_rows` the driver performs after all joins.) -/
def Camera.render (f : ℕ → ℕ → RaytraceResult) (w h W : ℕ) : Option Framebuffer :=
  (joinAll ((List.range W).map fun i =>
    Camera.renderRows f w (bandStart W h i) (bandEnd W h i))).map
    Framebuffer.combineRows

/-- The pixels row y of the final image must hold. -/
def rowPixels (f : ℕ → ℕ → RaytraceResult) (w y : ℕ) : List Pixel :=
  (List.range w).map fun x => { colour := (f x y).colour, depth := (f x y).depth }

lemma list_getD_mid {α : Type} (pre rest : List α) (p0 d : α) :
    (pre ++ p0 :: rest).getD pre.length d = p0 := by
  induction pre with
  | nil => rfl
  | cons a tl ih => simpa [List.getD_cons_succ] using ih

lemma list_set_mid {α : Type} (pre rest : List α) (p0 q : α) :
    (pre ++ p0 :: rest).set pre.length q = pre ++ q :: rest := by
  induction pre with
  | nil => rfl
  | cons a tl ih => simpa [List.set_cons_succ] using ih

lemma plotBoth_mid (w hH : ℕ) (pre rest : List Pixel) (p0 : Pixel)
    (x ylocal : ℕ) (c : Colour) (d : Fd)
    (hidx : ylocal * w + x = pre.length) :
    ((Framebuffer.mk w hH (pre ++ p0 :: rest)).plotPixel x ylocal c).plotDepth
        x ylocal d
      = Framebuffer.mk w hH (pre ++ Pixel.mk c d :: rest) := by
  unfold Framebuffer.plotPixel Framebuffer.plotDepth
  simp only [hidx, list_getD_mid, list_set_mid]

/-- Writing one full row of pixels (inner loop of `render_rows`) replaces
the row's slice of the buffer with the shaded pixels. -/
lemma rowFoldAux (f : ℕ → ℕ → RaytraceResult) (w hH ylocal y : ℕ) :
    ∀ (n j : ℕ) (pre mid rest : List Pixel),
      pre.length = ylocal * w + j → mid.length = n →
      (List.range' j n).foldl
        (fun fb x =>
          (fb.plotPixel x ylocal (f x y).colour).plotDepth x ylocal (f x y).depth)
        (Framebuffer.mk w hH (pre ++ (mid ++ rest)))
      = Framebuffer.mk w hH
          (pre ++ (((List.range' j n).map fun x =>
              Pixel.mk (f x y).colour (f x y).depth) ++ rest)) := by
  intro n
  induction n with
  | zero =>
    intro j pre mid rest hpre hmid
    rw [List.eq_nil_of_length_eq_zero hmid]
    rfl
  | succ n ih =>
    intro j pre mid rest hpre hmid
    cases mid with
    | nil => exact absurd hmid (by simp)
    | cons m0 mid2 =>
      rw [List.range'_succ, List.foldl_cons]
      have hstep := plotBoth_mid w hH pre (mid2 ++ rest) m0 j ylocal
        (f j y).colour (f j y).depth hpre.symm
      rw [show pre ++ (m0 :: mid2 ++ rest) = pre ++ m0 :: (mid2 ++ rest) by simp,
        hstep]
      have hpre2 : (pre ++ [Pixel.mk (f j y).colour (f j y).depth]).length
          = ylocal * w + (j + 1) := by
        simp [hpre]; omega
      have hmid2 : mid2.length = n := by simpa using hmid
      have := ih (j + 1) (pre ++ [Pixel.mk (f j y).colour (f j y).depth]) mid2
        rest hpre2 hmid2
      rw [show pre ++ Pixel.mk (f j y).colour (f j y).depth :: (mid2 ++ rest)
          = (pre ++ [Pixel.mk (f j y).colour (f j y).depth]) ++ (mid2 ++ rest) by simp,
        this]
      simp [List.range'_succ]

/-- Writing rows `[s+j, s+j+n)` (outer loop of `render_rows`) replaces
the corresponding row-major slice of the buffer. -/
lemma rowsFoldAux (f : ℕ → ℕ → RaytraceResult) (w hH s : ℕ) :
    ∀ (n j : ℕ) (pre mid : List Pixel),
      pre.length = j * w → mid.length = n * w →
      (List.range' (s + j) n).foldl
        (fun fb y =>
          (List.range w).foldl
            (fun fb x =>
              (fb.plotPixel x (y - s) (f x y).colour).plotDepth x (y - s)
                (f x y).depth)
            fb)
        (Framebuffer.mk w hH (pre ++ mid))
      = Framebuffer.mk w hH
          (pre ++ ((List.range' (s + j) n).map (rowPixels f w)).flatten) := by
  intro n
  induction n with
  | zero =>
    intro j pre mid hpre hmid
    have hmid0 : mid = [] := List.eq_nil_of_length_eq_zero (by simpa using hmid)
    rw [hmid0]
    simp
  | succ n ih =>
    intro j pre mid hpre hmid
    rw [List.range'_succ, List.foldl_cons]
    have hmidlen : w ≤ mid.length := by rw [hmid, Nat.succ_mul]; omega
    have hsplit : mid = mid.take w ++ mid.drop w := (List.take_append_drop w mid).symm
    have htake : (mid.take w).length = w := by
      rw [List.length_take]; exact Nat.min_eq_left hmidlen
    have hdrop : (mid.drop w).length = n * w := by
      rw [List.length_drop, hmid, Nat.succ_mul]; omega
    rw [hsplit]
    have hylocal : s + j - s = j := by omega
    have hinner := rowFoldAux f w hH j (s + j) w 0 pre (mid.take w)
      (mid.drop w) (by rw [hpre]; omega) htake
    rw [← List.range_eq_range'] at hinner
    simp only [hylocal]
    rw [hinner]
    have hrow : ((List.range w).map fun x =>
        Pixel.mk (f x (s + j)).colour (f x (s + j)).depth)
          = rowPixels f w (s + j) := rfl
    rw [hrow]
    have hpre2 : (pre ++ rowPixels f w (s + j)).length = (j + 1) * w := by
      have : (rowPixels f w (s + j)).length = w := by
        unfold rowPixels; simp
      simp [hpre, this, Nat.succ_mul]
    have := ih (j + 1) (pre ++ rowPixels f w (s + j)) (mid.drop w)
      hpre2 hdrop
    rw [show s + (j + 1) = s + j + 1 by omega] at this
    rw [← List.append_assoc, this]
    simp [List.range'_succ]

/-- Below the constructor's size bound, `render_rows` produces exactly
the rows `[s, e)` of the final image, joined in row-major order. -/
lemma renderRows_eq (f : ℕ → ℕ → RaytraceResult) (w s e : ℕ)
    (hw : w < 2048) (hhs : e - s < 2048) :
    Camera.renderRows f w s e
      = some (Framebuffer.mk w (e - s)
          (((List.range' s (e - s)).map (rowPixels f w)).flatten)) := by
  unfold Camera.renderRows Framebuffer.new
  rw [if_neg (by omega)]
  have := rowsFoldAux f w (e - s) s (e - s) 0 []
    (List.replicate (w * (e - s)) Pixel.black) (by simp)
    (by simp [Nat.mul_comm])
  simpa using this

lemma uniformBands (rpt : ℕ) :
    ∀ k, ((List.range k).map fun i => List.range' (i * rpt) rpt).flatten
      = List.range' 0 (k * rpt) := by
  intro k
  induction k with
  | zero => simp
  | succ k ih =>
    rw [List.range_succ, List.map_append, List.flatten_append, ih]
    simp only [List.map_cons, List.map_nil, List.flatten_cons, List.flatten_nil,
      List.append_nil]
    have := List.range'_append_1 0 (k * rpt) rpt
    rw [Nat.zero_add] at this
    rw [this, Nat.succ_mul, Nat.add_comm rpt (k * rpt)]

lemma flatten_of_map_flatten (g : ℕ → List Pixel) (rs : List (List ℕ)) :
    (rs.map fun l => (l.map g).flatten).flatten = ((rs.flatten).map g).flatten := by
  induction rs with
  | nil => simp
  | cons x xs ih => simp [ih]

/-- The bands of `Camera::render` tile `[0, h)` exactly. -/
lemma bandsJoin (W h : ℕ) (hW : 1 ≤ W) :
    ((List.range W).map fun i =>
        List.range' (bandStart W h i) (bandEnd W h i - bandStart W h i)).flatten
      = List.range' 0 h := by
  obtain ⟨V, rfl⟩ : ∃ V, W = V + 1 := ⟨W - 1, by omega⟩
  rw [List.range_succ, List.map_append, List.flatten_append]
  have hmapeq : ((List.range V).map fun i =>
      List.range' (bandStart (V + 1) h i)
        (bandEnd (V + 1) h i - bandStart (V + 1) h i))
      = (List.range V).map fun i =>
          List.range' (i * (h / (V + 1))) (h / (V + 1)) := by
    apply List.map_congr_left
    intro i hi
    have hiV : i < V := List.mem_range.mp hi
    have hne : ¬(i = V + 1 - 1) := by omega
    have hsub : bandEnd (V + 1) h i - bandStart (V + 1) h i = h / (V + 1) := by
      unfold bandStart bandEnd
      rw [if_neg hne, Nat.succ_mul, Nat.add_zero]
      exact Nat.add_sub_cancel_left _ _
    rw [hsub]
    rfl
  rw [hmapeq, uniformBands (h / (V + 1)) V]
  simp only [List.map_cons, List.map_nil, List.flatten_cons, List.flatten_nil,
    List.append_nil]
  have hlast : bandEnd (V + 1) h V - bandStart (V + 1) h V
      = h / (V + 1) + h % (V + 1) := by
    unfold bandStart bandEnd
    rw [if_pos (by omega), Nat.succ_mul, Nat.add_assoc]
    exact Nat.add_sub_cancel_left _ _
  have hstart : bandStart (V + 1) h V = V * (h / (V + 1)) := rfl
  rw [hlast, hstart]
  have happ := List.range'_append_1 0 (V * (h / (V + 1)))
    (h / (V + 1) + h % (V + 1))
  rw [Nat.zero_add] at happ
  rw [happ]
  congr 1
  have hdm := Nat.div_add_mod h (V + 1)
  rw [Nat.succ_mul] at hdm
  generalize h / (V + 1) = q at hdm ⊢
  generalize h % (V + 1) = r at hdm ⊢
  omega

/-- Every band ends at or before row `h`, so for `h < 2048` every
worker's tile height is below the constructor's bound. -/
lemma bandEnd_le (W h i : ℕ) (hW : 1 ≤ W) (hi : i < W) : bandEnd W h i ≤ h := by
  unfold bandEnd
  by_cases hlast : i = W - 1
  · rw [if_pos hlast]
    have hiW : i + 1 = W := by omega
    rw [hiW]
    have hdm := Nat.div_add_mod h W
    generalize W * (h / W) = m at hdm ⊢
    generalize h % W = r at hdm ⊢
    omega
  · rw [if_neg hlast, Nat.add_zero]
    have h1 : i + 1 ≤ W := hi
    have h2 : W * (h / W) ≤ h := by
      rw [Nat.mul_comm]
      exact Nat.div_mul_le_self h W
    exact le_trans (Nat.mul_le_mul h1 (Nat.le_refl _)) h2

/-- Joining workers that all produce a tile yields the list of tiles. -/
lemma joinAll_map_some (g : ℕ → Framebuffer) (l : List ℕ)
    (F : ℕ → Option Framebuffer) (h : ∀ x ∈ l, F x = some (g x)) :
    joinAll (l.map F) = some (l.map g) := by
  induction l with
  | nil => rfl
  | cons a tl ih =>
    rw [List.map_cons, List.map_cons, h a (by simp)]
    rw [show joinAll (some (g a) :: tl.map F)
        = (joinAll (tl.map F)).map (fun fbs => g a :: fbs) from rfl]
    rw [ih fun x hx => h x (by simp [hx])]
    rfl

/-- Worker i's tile, once the size bound is met. -/
def bandTile (f : ℕ → ℕ → RaytraceResult) (w h V i : ℕ) : Framebuffer :=
  Framebuffer.mk w (bandEnd V h i - bandStart V h i)
    (((List.range' (bandStart V h i) (bandEnd V h i - bandStart V h i)).map
        (rowPixels f w)).flatten)

/-- Below the size bound, the tiled render with any positive worker count
yields the full row-major image. -/
lemma render_eq_full (f : ℕ → ℕ → RaytraceResult) (w h V : ℕ)
    (hV : 1 ≤ V) (hw : w < 2048) (hh : h < 2048) :
    Camera.render f w h V
      = some (Framebuffer.mk w h
          (((List.range' 0 h).map (rowPixels f w)).flatten)) := by
  have htile : ∀ i ∈ List.range V,
      Camera.renderRows f w (bandStart V h i) (bandEnd V h i)
        = some (bandTile f w h V i) := by
    intro i hi
    apply renderRows_eq f w _ _ hw
    have hle := bandEnd_le V h i hV (List.mem_range.mp hi)
    omega
  unfold Camera.render
  rw [joinAll_map_some (bandTile f w h V) (List.range V) _ htile,
    Option.map_some']
  congr 1
  unfold Framebuffer.combineRows
  have hwid : (((List.range V).map (bandTile f w h V)).headD
      (Framebuffer.mk 0 0 [])).width = w := by
    obtain ⟨V2, rfl⟩ : ∃ V2, V = V2 + 1 := ⟨V - 1, by omega⟩
    rw [List.range_eq_range', List.range'_succ, List.map_cons]
    rfl
  have hhei : (((List.range V).map (bandTile f w h V)).map
      Framebuffer.height).sum = h := by
    rw [List.map_map]
    have hcomp : (Framebuffer.height ∘ bandTile f w h V)
        = fun i => bandEnd V h i - bandStart V h i := rfl
    rw [hcomp]
    have hlen := congrArg List.length (bandsJoin V h hV)
    rw [List.length_flatten, List.map_map] at hlen
    have hcomp2 : (List.length ∘ fun i => List.range' (bandStart V h i)
        (bandEnd V h i - bandStart V h i))
        = fun i => bandEnd V h i - bandStart V h i := by
      funext i
      simp
    rw [hcomp2, List.length_range'] at hlen
    exact hlen
  have hpix : (((List.range V).map (bandTile f w h V)).map
      Framebuffer.pixels).flatten
      = ((List.range' 0 h).map (rowPixels f w)).flatten := by
    rw [List.map_map]
    have hcomp : (Framebuffer.pixels ∘ bandTile f w h V)
        = (fun l => (l.map (rowPixels f w)).flatten) ∘ fun i =>
            List.range' (bandStart V h i) (bandEnd V h i - bandStart V h i) := rfl
    rw [hcomp, ← List.map_map, flatten_of_map_flatten, bandsJoin V h hV]
  rw [Framebuffer.mk.injEq]
  exact ⟨hwid, hhei, hpix⟩

/-- Claim C8 (amended): below the framebuffer constructor's size bound
(`w, h < 2048`), the tiled driver partitions rows into the disjoint
contiguous bands `[i·(h/W), (i+1)·(h/W))` with the last worker absorbing
the remainder; concatenating the per-worker tiles reproduces the full
row-major image; and rendering with W workers is pixel-identical to
rendering with one.  (Without the bound the equivalence fails: see the
counterexample.) -/
theorem claim8_tiled_driver (f : ℕ → ℕ → RaytraceResult) (w h W : ℕ)
    (hW : 1 ≤ W) (hw : w < 2048) (hh : h < 2048) :
    (∀ i, bandStart W h i = i * (h / W))
    ∧ (∀ i, i + 1 < W →
        bandEnd W h i = (i + 1) * (h / W)
          ∧ bandEnd W h i = bandStart W h (i + 1))
    ∧ bandEnd W h (W - 1) = h
    ∧ Camera.render f w h W
        = some (Framebuffer.mk w h
            (((List.range' 0 h).map (rowPixels f w)).flatten))
    ∧ Camera.render f w h W = Camera.render f w h 1 := by
  refine ⟨fun i => rfl, ?_, ?_, render_eq_full f w h W hW hw hh, ?_⟩
  · intro i hi
    have hne : ¬(i = W - 1) := by omega
    unfold bandEnd bandStart
    rw [if_neg hne]
    exact ⟨rfl, by rfl⟩
  · unfold bandEnd
    rw [if_pos rfl]
    have hW1 : W - 1 + 1 = W := by omega
    rw [hW1]
    exact Nat.div_add_mod h W
  · rw [render_eq_full f w h W hW hw hh, render_eq_full f w h 1 (by omega) hw hh]

def fC8 : ℕ → ℕ → RaytraceResult :=
  fun x y => { colour := ⟨(x : ℚ), (y : ℚ), 0, 1⟩, depth := .fin 1 }

/-- Claim C8 counterexample: worker-count invariance is NOT
unconditional.  At w = 1, h = 4096 the driver succeeds with 4 workers
(each tile is 1024 rows, below `FrameBuffer::new`'s 2048 bound) but with
1 worker `render_rows` constructs `FrameBuffer::new(1, 4096)` and panics
(`none`), so the two worker counts do not produce identical output. -/
theorem claim8_counterexample :
    Camera.render fC8 1 4096 4 ≠ Camera.render fC8 1 4096 1
    ∧ Camera.render fC8 1 4096 1 = none := by
  have h4 : (Camera.render fC8 1 4096 4).isSome = true := rfl
  have h1 : Camera.render fC8 1 4096 1 = none := rfl
  refine ⟨?_, h1⟩
  intro heq
  rw [heq, h1] at h4
  simp at h4

theorem claim8_witness :
    Camera.render fC8 2 3 2 = Camera.render fC8 2 3 1 :=
  (claim8_tiled_driver fC8 2 3 2 (by decide) (by decide) (by decide)).2.2.2.2

/-- Truncation toward zero, the rounding of Rust's `as` casts from float
to integer. -/
def truncQ (q : ℚ) : ℤ := if q < 0 then -(Int.floor (-q)) else Int.floor q

/-- Rust `f32 as u8`: truncate toward zero and saturate into [0, 255]. -/
def f32AsU8 (q : ℚ) : ℤ := max 0 (min 255 (truncQ q))

/-- The pixel-data bytes `Framebuffer::write_rgb_file` emits after the
PPM header: for every pixel in order, `(c * 255.0) as u8` of the three
colour channels. -/
def Framebuffer.rgbBytes (fb : Framebuffer) : List ℤ :=
  (fb.pixels.map fun p =>
    [f32AsU8 (p.colour.r * 255), f32AsU8 (p.colour.g * 255),
     f32AsU8 (p.colour.b * 255)]).flatten

lemma f32AsU8_eq_clamp_floor (q : ℚ) :
    f32AsU8 q = min 255 (max 0 (Int.floor q)) := by
  unfold f32AsU8 truncQ
  by_cases hq : q < 0
  · rw [if_pos hq]
    have h1 : Int.floor (-q) ≥ 0 := by
      rw [ge_iff_le, Int.le_floor]
      push_cast
      linarith
    have h2 : Int.floor q ≤ 0 := Int.floor_nonpos (le_of_lt hq)
    omega
  · rw [if_neg hq]
    have h0 : (0 : ℤ) ≤ Int.floor q := by
      apply Int.floor_nonneg.mpr
      linarith [not_lt.mp hq]
    omega

/-- Claim C10: colour channels are clamped only at file write: each
written byte is `min(255, max(0, floor(c·255)))` (saturating cast), while
`plot_pixel` stores the colour bit-for-bit — out-of-range values survive
in the framebuffer and saturate only in the emitted bytes. -/
theorem claim10_clamp_only_at_write (fb : Framebuffer) (x y : ℕ) (c : Colour)
    (hx : y * fb.width + x < fb.pixels.length) :
    fb.rgbBytes
      = (fb.pixels.map fun p =>
          [min 255 (max 0 (Int.floor (p.colour.r * 255))),
           min 255 (max 0 (Int.floor (p.colour.g * 255))),
           min 255 (max 0 (Int.floor (p.colour.b * 255)))]).flatten
    ∧ (fb.plotPixel x y c).getColour x y = c := by
  constructor
  · unfold Framebuffer.rgbBytes
    have hfun : (fun (p : Pixel) =>
        [f32AsU8 (p.colour.r * 255), f32AsU8 (p.colour.g * 255),
         f32AsU8 (p.colour.b * 255)])
        = fun (p : Pixel) =>
          [min 255 (max 0 (Int.floor (p.colour.r * 255))),
           min 255 (max 0 (Int.floor (p.colour.g * 255))),
           min 255 (max 0 (Int.floor (p.colour.b * 255)))] := by
      funext p
      rw [f32AsU8_eq_clamp_floor, f32AsU8_eq_clamp_floor, f32AsU8_eq_clamp_floor]
    rw [hfun]
  · unfold Framebuffer.plotPixel Framebuffer.getColour
    simp only [List.getD, List.get?_eq_getElem?]
    rw [List.getElem?_set_self (by simpa using hx)]
    rfl

def fbC10 : Framebuffer :=
  { width := 1, height := 1,
    pixels := [{ colour := ⟨2, -1, 1/2, 1⟩, depth := .fin 0 }] }

theorem claim10_witness :
    fbC10.rgbBytes
      = (fbC10.pixels.map fun p =>
          [min 255 (max 0 (Int.floor (p.colour.r * 255))),
           min 255 (max 0 (Int.floor (p.colour.g * 255))),
           min 255 (max 0 (Int.floor (p.colour.b * 255)))]).flatten
    ∧ (fbC10.plotPixel 0 0 ⟨3, -2, 1/2, 1⟩).getColour 0 0 = ⟨3, -2, 1/2, 1⟩ :=
  claim10_clamp_only_at_write fbC10 0 0 ⟨3, -2, 1/2, 1⟩ (by decide)

/-- Unit-diameter cylinder along the y axis (`Quadratic::cylinder(2.0)`),
used as the concrete quadric witness. -/
def quadC2 : Quadratic :=
  { a := 1, b := 0, c := 0, d := 0, e := 0, f := 0, g := 0, h := 1, i := 0,
    j := -1, material := plainMaterial 0 }

def rayC2q : Ray := { position := ⟨-3, 0, 0⟩, direction := ⟨1, 0, 0⟩ }

theorem claim2_witness :
    ((Sphere.intersect defaultModel sphereC2 rayC2).getD 0 junkHit).normal.dot
        rayC2.direction ≤ 0
    ∧ ((Quadratic.intersect defaultModel quadC2 rayC2q).getD 0 junkHit).normal.dot
        rayC2q.direction ≤ 0 :=
  ⟨(claim2_normals_face_against_ray defaultModel sphereC2 quadC2 rayC2
      ((Sphere.intersect defaultModel sphereC2 rayC2).getD 0 junkHit)
      (fun _ => rfl)).1 (by decide),
   (claim2_normals_face_against_ray defaultModel sphereC2 quadC2 rayC2q
      ((Quadratic.intersect defaultModel quadC2 rayC2q).getD 0 junkHit)
      (fun _ => rfl)).2 (by decide)⟩

end RT
